import Mathlib

/-!
Verification of the cryptographic core of the Pinkypromise repository
(`src/server/crypto.ts` and the WebAuthn promise service) against its
natural-language specification.

The TypeScript source is shallowly embedded: byte strings are `List Nat`
(each element < 256), machine words are `Nat` reduced `% 2 ^ 32` where the
source relies on 32-bit wraparound, JSON values are an inductive `Json`
mirroring the JavaScript data JSON can carry, and code that can throw is
embedded in `Except String`.  Calls that sample entropy or read the clock
(`crypto.randomBytes`, `Date.now()`) become explicit arguments, so every
embedded operation is a pure function of its arguments.  Platform
primitives used by the source (SHA-256, HMAC, AES-256-GCM, base64, hex,
UTF-8, `JSON.parse`/`JSON.stringify`) are implemented concretely below,
following their standard semantics.
-/

set_option maxRecDepth 100000
set_option maxHeartbeats 2000000

/-! ## Bytes and words -/

/-- Big-endian byte rendering of a natural number at a fixed width, the shape
`crypto.randomBytes` output takes once the sampled entropy is made an explicit
numeric argument. -/
def natToBytesBE : Nat → Nat → List Nat
  | 0, _ => []
  | w + 1, n => natToBytesBE w (n / 256) ++ [n % 256]

/-- Big-endian reading of a byte list as a natural number. -/
def bytesToNatBE (l : List Nat) : Nat :=
  l.foldl (fun a b => a * 256 + b) 0

/-- Every element of the list is a byte value. -/
def IsBytes (l : List Nat) : Prop := ∀ b ∈ l, b < 256

/-- Bytewise xor of two lists, truncated to the shorter one. -/
def xorBytes : List Nat → List Nat → List Nat
  | a :: as, b :: bs => (a ^^^ b) :: xorBytes as bs
  | _, _ => []

theorem natToBytesBE_length (w n : Nat) : (natToBytesBE w n).length = w := by
  induction w generalizing n with
  | zero => rfl
  | succ w ih => simp [natToBytesBE, ih]

theorem natToBytesBE_isBytes (w n : Nat) : IsBytes (natToBytesBE w n) := by
  induction w generalizing n with
  | zero => intro b hb; simp [natToBytesBE] at hb
  | succ w ih =>
    intro b hb
    simp only [natToBytesBE, List.mem_append, List.mem_singleton] at hb
    rcases hb with h | h
    · exact ih _ b h
    · omega

/-- Big-endian bytes determine the encoded number modulo `256 ^ w`. -/
theorem natToBytesBE_inj (w : Nat) {m n : Nat}
    (h : natToBytesBE w m = natToBytesBE w n) : m % 256 ^ w = n % 256 ^ w := by
  induction w generalizing m n with
  | zero => simp [Nat.mod_one]
  | succ w ih =>
    simp only [natToBytesBE] at h
    obtain ⟨h1, h2⟩ := List.append_inj h (by simp [natToBytesBE_length])
    have hm := ih h1
    have hl : m % 256 = n % 256 := by simpa using h2
    have hpow : (256 : Nat) ^ (w + 1) = 256 * 256 ^ w := by ring
    rw [hpow, Nat.mod_mul, Nat.mod_mul, hm, hl]

/-! ## Hexadecimal -/

/-- Lower-case hexadecimal digit for a value below 16. -/
def hexDigitChar (n : Nat) : Char :=
  if n < 10 then Char.ofNat (48 + n) else Char.ofNat (87 + n)

/-- Numeric value of a hexadecimal digit, `none` for other characters. -/
def hexVal (c : Char) : Option Nat :=
  if '0' ≤ c ∧ c ≤ '9' then some (c.toNat - 48)
  else if 'a' ≤ c ∧ c ≤ 'f' then some (c.toNat - 87)
  else if 'A' ≤ c ∧ c ≤ 'F' then some (c.toNat - 55)
  else none

/-- Hex rendering of a byte list (`Buffer.prototype.toString('hex')`). -/
def hexEncodeList (l : List Nat) : List Char :=
  l.flatMap fun b => [hexDigitChar (b / 16 % 16), hexDigitChar (b % 16)]

def hexEncode (l : List Nat) : String :=
  ⟨hexEncodeList l⟩

/-- Hex decoding as `Buffer.from(s, 'hex')` performs it: bytes are read two
digits at a time and decoding stops at the first non-digit pair or lone
trailing digit, without throwing. -/
def hexDecodeList : List Char → List Nat
  | a :: b :: rest =>
    match hexVal a, hexVal b with
    | some x, some y => (16 * x + y) :: hexDecodeList rest
    | _, _ => []
  | _ => []

def hexDecode (s : String) : List Nat :=
  hexDecodeList s.data

/-! ## Base64 and base64url -/

/-- Standard base64 alphabet character for a sextet. -/
def b64CharStd (i : Nat) : Char :=
  if i < 26 then Char.ofNat (65 + i)
  else if i < 52 then Char.ofNat (97 + (i - 26))
  else if i < 62 then Char.ofNat (48 + (i - 52))
  else if i = 62 then '+' else '/'

/-- URL-safe base64 alphabet character for a sextet. -/
def b64CharUrl (i : Nat) : Char :=
  if i < 26 then Char.ofNat (65 + i)
  else if i < 52 then Char.ofNat (97 + (i - 26))
  else if i < 62 then Char.ofNat (48 + (i - 52))
  else if i = 62 then '-' else '_'

/-- Sextet value of a base64 character.  Node's decoder accepts both the
standard and the URL-safe alphabet and ignores every other character, so one
table serves both decodings. -/
def b64Val (c : Char) : Option Nat :=
  if 'A' ≤ c ∧ c ≤ 'Z' then some (c.toNat - 65)
  else if 'a' ≤ c ∧ c ≤ 'z' then some (c.toNat - 97 + 26)
  else if '0' ≤ c ∧ c ≤ '9' then some (c.toNat - 48 + 52)
  else if c = '+' ∨ c = '-' then some 62
  else if c = '/' ∨ c = '_' then some 63
  else none

/-- Sextets of a byte list, three bytes to four sextets, with the tail
chunks producing two or three sextets. -/
def b64Sextets : List Nat → List Nat
  | b1 :: b2 :: b3 :: rest =>
    b1 / 4 :: (b1 % 4 * 16 + b2 / 16) :: (b2 % 16 * 4 + b3 / 64) :: b3 % 64 :: b64Sextets rest
  | [b1, b2] => [b1 / 4, b1 % 4 * 16 + b2 / 16, b2 % 16 * 4]
  | [b1] => [b1 / 4, b1 % 4 * 16]
  | [] => []

/-- Padding suffix of a standard base64 rendering. -/
def b64Padding (l : List Nat) : List Char :=
  match l.length % 3 with
  | 1 => ['=', '=']
  | 2 => ['=']
  | _ => []

/-- Standard base64 rendering with padding (`Buffer.prototype.toString('base64')`). -/
def base64Encode (l : List Nat) : String :=
  ⟨(b64Sextets l).map b64CharStd ++ b64Padding l⟩

/-- URL-safe base64 rendering without padding (`Buffer.prototype.toString('base64url')`). -/
def base64urlEncode (l : List Nat) : String :=
  ⟨(b64Sextets l).map b64CharUrl⟩

/-- Bytes recovered from a sextet stream, four sextets to three bytes, a
trailing pair or triple yielding one or two bytes and a lone sextet nothing. -/
def b64DecodeVals : List Nat → List Nat
  | a :: b :: c :: d :: rest =>
    (a * 4 + b / 16) :: (b % 16 * 16 + c / 4) :: (c % 4 * 64 + d) :: b64DecodeVals rest
  | [a, b] => [a * 4 + b / 16]
  | [a, b, c] => [a * 4 + b / 16, b % 16 * 16 + c / 4]
  | _ => []

/-- Forgiving base64 decoding as `Buffer.from(s, 'base64')` and
`Buffer.from(s, 'base64url')` perform it: characters outside both alphabets
(including `=` padding) are ignored and decoding never throws. -/
def base64Decode (s : String) : List Nat :=
  b64DecodeVals (s.data.filterMap b64Val)

/-! ## UTF-8 -/

/-- UTF-8 bytes of one Unicode scalar value. -/
def utf8EncodeChar (c : Char) : List Nat :=
  let n := c.toNat
  if n < 128 then [n]
  else if n < 2048 then [192 + n / 64, 128 + n % 64]
  else if n < 65536 then [224 + n / 4096, 128 + n / 64 % 64, 128 + n % 64]
  else [240 + n / 262144, 128 + n / 4096 % 64, 128 + n / 64 % 64, 128 + n % 64]

/-- UTF-8 bytes of a string (`Buffer.from(s, 'utf8')`). -/
def utf8Encode (s : String) : List Nat :=
  s.data.flatMap utf8EncodeChar

/-- The replacement character emitted for invalid byte sequences. -/
def replacementChar : Char := Char.ofNat 65533

/-- One step of UTF-8 decoding: the scalar encoded at the head of the byte
list and the remaining bytes.  Mirrors `Buffer.prototype.toString('utf8')`,
which never fails and decodes invalid sequences to replacement characters; an
invalid sequence consumes the bytes examined for it, an approximation of the
platform's resume position that is exact on valid input. -/
def utf8Step : List Nat → Char × List Nat
  | [] => (replacementChar, [])
  | b :: rest =>
    if b < 128 then (Char.ofNat b, rest)
    else if 194 ≤ b ∧ b < 224 then
      let b2 := rest.headD 256
      if 128 ≤ b2 ∧ b2 < 192 then (Char.ofNat ((b - 192) * 64 + (b2 - 128)), rest.tail)
      else (replacementChar, rest.tail)
    else if 224 ≤ b ∧ b < 240 then
      let b2 := rest.headD 256
      let b3 := rest.tail.headD 256
      let n := (b - 224) * 4096 + (b2 - 128) * 64 + (b3 - 128)
      if 128 ≤ b2 ∧ b2 < 192 ∧ 128 ≤ b3 ∧ b3 < 192 ∧ 2048 ≤ n ∧ (n < 55296 ∨ 57344 ≤ n) then
        (Char.ofNat n, rest.tail.tail)
      else (replacementChar, rest.tail.tail)
    else if 240 ≤ b ∧ b < 245 then
      let b2 := rest.headD 256
      let b3 := rest.tail.headD 256
      let b4 := rest.tail.tail.headD 256
      let n := (b - 240) * 262144 + (b2 - 128) * 4096 + (b3 - 128) * 64 + (b4 - 128)
      if 128 ≤ b2 ∧ b2 < 192 ∧ 128 ≤ b3 ∧ b3 < 192 ∧ 128 ≤ b4 ∧ b4 < 192 ∧
          65536 ≤ n ∧ n < 1114112 then
        (Char.ofNat n, rest.tail.tail.tail)
      else (replacementChar, rest.tail.tail.tail)
    else (replacementChar, rest)

/-- Fueled UTF-8 decoding loop; every step consumes at least one byte, so fuel
equal to the byte count always suffices. -/
def utf8DecodeAux : Nat → List Nat → List Char
  | 0, _ => []
  | _, [] => []
  | f + 1, b :: rest =>
    (utf8Step (b :: rest)).1 :: utf8DecodeAux f (utf8Step (b :: rest)).2

/-- UTF-8 decoding of a byte list to a string. -/
def utf8Decode (l : List Nat) : String :=
  ⟨utf8DecodeAux l.length l⟩

/-! ## Codec roundtrips -/

theorem hexVal_hexDigitChar : ∀ i, i < 16 → hexVal (hexDigitChar i) = some i := by decide

theorem hexDecodeList_hexEncodeList : ∀ l : List Nat, IsBytes l →
    hexDecodeList (hexEncodeList l) = l
  | [], _ => rfl
  | b :: rest, h => by
    have hb : b < 256 := h b (by simp)
    have ih := hexDecodeList_hexEncodeList rest (fun x hx => h x (by simp [hx]))
    have h1 : hexVal (hexDigitChar (b / 16 % 16)) = some (b / 16 % 16) :=
      hexVal_hexDigitChar _ (by omega)
    have h2 : hexVal (hexDigitChar (b % 16)) = some (b % 16) :=
      hexVal_hexDigitChar _ (by omega)
    simp only [hexEncodeList, List.flatMap_cons, List.cons_append, List.nil_append,
      hexDecodeList, h1, h2]
    rw [show 16 * (b / 16 % 16) + b % 16 = b by omega]
    exact congrArg (b :: ·) ih

theorem hexDecode_hexEncode (l : List Nat) (h : IsBytes l) : hexDecode (hexEncode l) = l :=
  hexDecodeList_hexEncodeList l h

theorem hexEncodeList_isHexChars (l : List Nat) :
    ∀ c ∈ hexEncodeList l, (hexVal c).isSome := by
  induction l with
  | nil => intro c hc; simp [hexEncodeList] at hc
  | cons b rest ih =>
    intro c hc
    simp only [hexEncodeList, List.flatMap_cons, List.mem_append] at hc
    rcases hc with hc | hc
    · have : c = hexDigitChar (b / 16 % 16) ∨ c = hexDigitChar (b % 16) := by
        simpa using hc
      rcases this with rfl | rfl <;>
        simp [hexVal_hexDigitChar _ (by omega : b / 16 % 16 < 16),
          hexVal_hexDigitChar _ (by omega : b % 16 < 16)]
    · exact ih c hc

theorem b64Val_b64CharStd : ∀ i, i < 64 → b64Val (b64CharStd i) = some i := by decide

theorem b64Val_b64CharUrl : ∀ i, i < 64 → b64Val (b64CharUrl i) = some i := by decide

theorem b64Sextets_lt : ∀ l : List Nat, IsBytes l → ∀ x ∈ b64Sextets l, x < 64
  | [], _ => by intro x hx; simp [b64Sextets] at hx
  | [b1], h => by
    have h1 : b1 < 256 := h b1 (by simp)
    intro x hx
    simp only [b64Sextets, List.mem_cons, List.not_mem_nil, or_false] at hx
    rcases hx with rfl | rfl <;> omega
  | [b1, b2], h => by
    have h1 : b1 < 256 := h b1 (by simp)
    have h2 : b2 < 256 := h b2 (by simp)
    intro x hx
    simp only [b64Sextets, List.mem_cons, List.not_mem_nil, or_false] at hx
    rcases hx with rfl | rfl | rfl <;> omega
  | b1 :: b2 :: b3 :: rest, h => by
    have h1 : b1 < 256 := h b1 (by simp)
    have h2 : b2 < 256 := h b2 (by simp)
    have h3 : b3 < 256 := h b3 (by simp)
    have ih := b64Sextets_lt rest (fun x hx => h x (by simp [hx]))
    intro x hx
    simp only [b64Sextets, List.mem_cons] at hx
    rcases hx with rfl | rfl | rfl | rfl | hx
    · omega
    · omega
    · omega
    · omega
    · exact ih x hx

theorem b64DecodeVals_b64Sextets : ∀ l : List Nat, IsBytes l →
    b64DecodeVals (b64Sextets l) = l
  | [], _ => rfl
  | [b1], h => by
    have h1 : b1 < 256 := h b1 (by simp)
    simp only [b64Sextets, b64DecodeVals]
    rw [show b1 / 4 * 4 + b1 % 4 * 16 / 16 = b1 by omega]
  | [b1, b2], h => by
    have h1 : b1 < 256 := h b1 (by simp)
    have h2 : b2 < 256 := h b2 (by simp)
    simp only [b64Sextets, b64DecodeVals]
    rw [show b1 / 4 * 4 + (b1 % 4 * 16 + b2 / 16) / 16 = b1 by omega,
      show (b1 % 4 * 16 + b2 / 16) % 16 * 16 + b2 % 16 * 4 / 4 = b2 by omega]
  | b1 :: b2 :: b3 :: rest, h => by
    have h1 : b1 < 256 := h b1 (by simp)
    have h2 : b2 < 256 := h b2 (by simp)
    have h3 : b3 < 256 := h b3 (by simp)
    have ih := b64DecodeVals_b64Sextets rest (fun x hx => h x (by simp [hx]))
    simp only [b64Sextets, b64DecodeVals]
    rw [show b1 / 4 * 4 + (b1 % 4 * 16 + b2 / 16) / 16 = b1 by omega,
      show (b1 % 4 * 16 + b2 / 16) % 16 * 16 + (b2 % 16 * 4 + b3 / 64) / 4 = b2 by omega,
      show (b2 % 16 * 4 + b3 / 64) % 4 * 64 + b3 % 64 = b3 by omega]
    exact congrArg (fun t => b1 :: b2 :: b3 :: t) ih

theorem filterMap_b64Val_map (f : Nat → Char) (hf : ∀ i, i < 64 → b64Val (f i) = some i)
    (s : List Nat) (hs : ∀ x ∈ s, x < 64) : (s.map f).filterMap b64Val = s := by
  induction s with
  | nil => rfl
  | cons a s ih =>
    have ha : a < 64 := hs a (by simp)
    simp only [List.map_cons, List.filterMap_cons, hf a ha]
    exact congrArg (a :: ·) (ih (fun x hx => hs x (by simp [hx])))

theorem filterMap_b64Val_b64Padding (l : List Nat) :
    (b64Padding l).filterMap b64Val = [] := by
  unfold b64Padding
  rcases hm : l.length % 3 with _ | _ | _ | k <;> simp <;> rfl

/-- Base64 with padding round-trips through the forgiving decoder. -/
theorem base64Decode_base64Encode (l : List Nat) (h : IsBytes l) :
    base64Decode (base64Encode l) = l := by
  unfold base64Decode base64Encode
  simp only [List.filterMap_append,
    filterMap_b64Val_map b64CharStd b64Val_b64CharStd _ (b64Sextets_lt l h),
    filterMap_b64Val_b64Padding, List.append_nil]
  exact b64DecodeVals_b64Sextets l h

/-- Unpadded URL-safe base64 round-trips through the forgiving decoder. -/
theorem base64Decode_base64urlEncode (l : List Nat) (h : IsBytes l) :
    base64Decode (base64urlEncode l) = l := by
  unfold base64Decode base64urlEncode
  simp only [filterMap_b64Val_map b64CharUrl b64Val_b64CharUrl _ (b64Sextets_lt l h)]
  exact b64DecodeVals_b64Sextets l h

theorem char_valid_nat (c : Char) : c.toNat < 55296 ∨ (57344 ≤ c.toNat ∧ c.toNat < 1114112) := by
  rcases c.valid with h | ⟨h1, h2⟩
  · left
    simpa [UInt32.lt_def, BitVec.lt_def, Char.toNat, UInt32.toNat] using h
  · right
    simp only [Char.toNat]
    omega

theorem utf8Step_one (b : Nat) (rest : List Nat) (h : b < 128) :
    utf8Step (b :: rest) = (Char.ofNat b, rest) := by
  simp only [utf8Step, if_pos h]

theorem utf8Step_two (n : Nat) (rest : List Nat) (h1 : 128 ≤ n) (h2 : n < 2048) :
    utf8Step ((192 + n / 64) :: (128 + n % 64) :: rest) = (Char.ofNat n, rest) := by
  have ha : ¬ (192 + n / 64 < 128) := by omega
  have hb : 194 ≤ 192 + n / 64 ∧ 192 + n / 64 < 224 := by omega
  simp only [utf8Step, if_neg ha, if_pos hb, List.headD_cons, List.tail_cons]
  rw [if_pos (show 128 ≤ 128 + n % 64 ∧ 128 + n % 64 < 192 by omega)]
  rw [show (192 + n / 64 - 192) * 64 + (128 + n % 64 - 128) = n by omega]

theorem utf8Step_three (n : Nat) (rest : List Nat) (h1 : 2048 ≤ n) (h2 : n < 65536)
    (hs : n < 55296 ∨ 57344 ≤ n) :
    utf8Step ((224 + n / 4096) :: (128 + n / 64 % 64) :: (128 + n % 64) :: rest) =
      (Char.ofNat n, rest) := by
  have ha : ¬ (224 + n / 4096 < 128) := by omega
  have hb : ¬ (194 ≤ 224 + n / 4096 ∧ 224 + n / 4096 < 224) := by omega
  have hb2 : 224 ≤ 224 + n / 4096 ∧ 224 + n / 4096 < 240 := by omega
  simp only [utf8Step, if_neg ha, if_neg hb, if_pos hb2, List.headD_cons, List.tail_cons]
  rw [show (224 + n / 4096 - 224) * 4096 + (128 + n / 64 % 64 - 128) * 64 +
    (128 + n % 64 - 128) = n by omega]
  rw [if_pos (show _ ∧ _ ∧ _ ∧ _ ∧ 2048 ≤ n ∧ (n < 55296 ∨ 57344 ≤ n) from
    ⟨by omega, by omega, by omega, by omega, h1, hs⟩)]

theorem utf8Step_four (n : Nat) (rest : List Nat) (h1 : 65536 ≤ n) (h2 : n < 1114112) :
    utf8Step ((240 + n / 262144) :: (128 + n / 4096 % 64) :: (128 + n / 64 % 64) ::
      (128 + n % 64) :: rest) = (Char.ofNat n, rest) := by
  have ha : ¬ (240 + n / 262144 < 128) := by omega
  have hb : ¬ (194 ≤ 240 + n / 262144 ∧ 240 + n / 262144 < 224) := by omega
  have hb2 : ¬ (224 ≤ 240 + n / 262144 ∧ 240 + n / 262144 < 240) := by omega
  have hb3 : 240 ≤ 240 + n / 262144 ∧ 240 + n / 262144 < 245 := by omega
  simp only [utf8Step, if_neg ha, if_neg hb, if_neg hb2, if_pos hb3, List.headD_cons,
    List.tail_cons]
  rw [show (240 + n / 262144 - 240) * 262144 + (128 + n / 4096 % 64 - 128) * 4096 +
    (128 + n / 64 % 64 - 128) * 64 + (128 + n % 64 - 128) = n by omega]
  rw [if_pos (show _ ∧ _ ∧ _ ∧ _ ∧ _ ∧ _ ∧ 65536 ≤ n ∧ n < 1114112 from
    ⟨by omega, by omega, by omega, by omega, by omega, by omega, h1, h2⟩)]

theorem utf8Step_encodeChar (c : Char) (rest : List Nat) :
    utf8Step (utf8EncodeChar c ++ rest) = (c, rest) := by
  have hv := char_valid_nat c
  by_cases h1 : c.toNat < 128
  · rw [show utf8EncodeChar c = [c.toNat] by rw [utf8EncodeChar]; exact if_pos h1]
    rw [List.cons_append, List.nil_append, utf8Step_one _ _ h1, Char.ofNat_toNat]
  · by_cases h2 : c.toNat < 2048
    · rw [show utf8EncodeChar c = [192 + c.toNat / 64, 128 + c.toNat % 64] by
        rw [utf8EncodeChar]; rw [if_neg h1, if_pos h2]]
      rw [List.cons_append, List.cons_append, List.nil_append,
        utf8Step_two _ _ (by omega) h2, Char.ofNat_toNat]
    · by_cases h3 : c.toNat < 65536
      · rw [show utf8EncodeChar c =
            [224 + c.toNat / 4096, 128 + c.toNat / 64 % 64, 128 + c.toNat % 64] by
          rw [utf8EncodeChar]; rw [if_neg h1, if_neg h2, if_pos h3]]
        rw [List.cons_append, List.cons_append, List.cons_append, List.nil_append,
          utf8Step_three _ _ (by omega) h3 (by omega), Char.ofNat_toNat]
      · rw [show utf8EncodeChar c = [240 + c.toNat / 262144, 128 + c.toNat / 4096 % 64,
            128 + c.toNat / 64 % 64, 128 + c.toNat % 64] by
          rw [utf8EncodeChar]; rw [if_neg h1, if_neg h2, if_neg h3]]
        rw [List.cons_append, List.cons_append, List.cons_append, List.cons_append,
          List.nil_append, utf8Step_four _ _ (by omega) (by omega), Char.ofNat_toNat]

theorem utf8EncodeChar_ne_nil (c : Char) : utf8EncodeChar c ≠ [] := by
  unfold utf8EncodeChar
  by_cases h1 : c.toNat < 128
  · simp [if_pos h1]
  · by_cases h2 : c.toNat < 2048
    · simp [if_neg h1, if_pos h2]
    · by_cases h3 : c.toNat < 65536
      · simp [if_neg h1, if_neg h2, if_pos h3]
      · simp [if_neg h1, if_neg h2, if_neg h3]

theorem utf8DecodeAux_nil (f : Nat) : utf8DecodeAux f [] = [] := by
  cases f <;> rfl

theorem utf8DecodeAux_flatMap (l : List Char) (f : Nat) (hf : l.length ≤ f) :
    utf8DecodeAux f (l.flatMap utf8EncodeChar) = l := by
  induction l generalizing f with
  | nil => simp [utf8DecodeAux_nil]
  | cons c rest ih =>
    obtain ⟨f, rfl⟩ : ∃ g, f = g + 1 := by
      cases f
      · simp at hf
      · exact ⟨_, rfl⟩
    have hne : utf8EncodeChar c ++ rest.flatMap utf8EncodeChar ≠ [] := by
      intro h
      exact utf8EncodeChar_ne_nil c (List.append_eq_nil.mp h).1
    simp only [List.flatMap_cons]
    obtain ⟨b, t, hbt⟩ : ∃ b t, utf8EncodeChar c ++ rest.flatMap utf8EncodeChar = b :: t := by
      cases hx : utf8EncodeChar c ++ rest.flatMap utf8EncodeChar with
      | nil => exact absurd hx hne
      | cons b t => exact ⟨b, t, rfl⟩
    rw [hbt, utf8DecodeAux, ← hbt, utf8Step_encodeChar]
    exact congrArg (c :: ·) (ih f (by simpa using hf))

theorem length_flatMap_utf8EncodeChar (l : List Char) :
    l.length ≤ (l.flatMap utf8EncodeChar).length := by
  induction l with
  | nil => simp
  | cons c rest ih =>
    simp only [List.flatMap_cons, List.length_append, List.length_cons]
    have : 1 ≤ (utf8EncodeChar c).length := by
      cases hx : utf8EncodeChar c with
      | nil => exact absurd hx (utf8EncodeChar_ne_nil c)
      | cons b t => simp
    omega

/-- UTF-8 round-trips: decoding the encoding of any string gives it back. -/
theorem utf8Decode_utf8Encode (s : String) : utf8Decode (utf8Encode s) = s := by
  obtain ⟨l⟩ := s
  unfold utf8Decode utf8Encode
  rw [utf8DecodeAux_flatMap l _ (length_flatMap_utf8EncodeChar l)]

theorem utf8EncodeChar_isBytes (c : Char) : IsBytes (utf8EncodeChar c) := by
  have hv := char_valid_nat c
  intro b hb
  unfold utf8EncodeChar at hb
  by_cases h1 : c.toNat < 128
  · simp only [if_pos h1, List.mem_singleton] at hb; omega
  · by_cases h2 : c.toNat < 2048
    · simp only [if_neg h1, if_pos h2, List.mem_cons, List.not_mem_nil, or_false] at hb
      rcases hb with rfl | rfl <;> omega
    · by_cases h3 : c.toNat < 65536
      · simp only [if_neg h1, if_neg h2, if_pos h3, List.mem_cons, List.not_mem_nil,
          or_false] at hb
        rcases hb with rfl | rfl | rfl <;> omega
      · have h4 : c.toNat < 1114112 := by omega
        simp only [if_neg h1, if_neg h2, if_neg h3, List.mem_cons, List.not_mem_nil,
          or_false] at hb
        rcases hb with rfl | rfl | rfl | rfl <;> omega

theorem utf8Encode_isBytes (s : String) : IsBytes (utf8Encode s) := by
  intro b hb
  unfold utf8Encode at hb
  obtain ⟨c, _, hc⟩ := List.mem_flatMap.mp hb
  exact utf8EncodeChar_isBytes c b hc

/-! ## SHA-256 -/

/-- Reduction to a 32-bit word. -/
def w32 (n : Nat) : Nat := n % 4294967296

/-- Right rotation of a 32-bit word. -/
def rotr32 (x k : Nat) : Nat := w32 ((x >>> k) ||| (x <<< (32 - k)))

def shaCh (x y z : Nat) : Nat := (x &&& y) ^^^ ((x ^^^ 4294967295) &&& z)

def shaMaj (x y z : Nat) : Nat := (x &&& y) ^^^ (x &&& z) ^^^ (y &&& z)

def shaBigSigma0 (x : Nat) : Nat := rotr32 x 2 ^^^ rotr32 x 13 ^^^ rotr32 x 22

def shaBigSigma1 (x : Nat) : Nat := rotr32 x 6 ^^^ rotr32 x 11 ^^^ rotr32 x 25

def shaSmallSigma0 (x : Nat) : Nat := rotr32 x 7 ^^^ rotr32 x 18 ^^^ (x >>> 3)

def shaSmallSigma1 (x : Nat) : Nat := rotr32 x 17 ^^^ rotr32 x 19 ^^^ (x >>> 10)

/-- The SHA-256 round constants. -/
def shaK : List Nat :=
  [1116352408, 1899447441, 3049323471, 3921009573, 961987163, 1508970993, 2453635748, 2870763221,
   3624381080, 310598401, 607225278, 1426881987, 1925078388, 2162078206, 2614888103, 3248222580,
   3835390401, 4022224774, 264347078, 604807628, 770255983, 1249150122, 1555081692, 1996064986,
   2554220882, 2821834349, 2952996808, 3210313671, 3336571891, 3584528711, 113926993, 338241895,
   666307205, 773529912, 1294757372, 1396182291, 1695183700, 1986661051, 2177026350, 2456956037,
   2730485921, 2820302411, 3259730800, 3345764771, 3516065817, 3600352804, 4094571909, 275423344,
   430227734, 506948616, 659060556, 883997877, 958139571, 1322822218, 1537002063, 1747873779,
   1955562222, 2024104815, 2227730452, 2361852424, 2428436474, 2756734187, 3204031479, 3329325298]

/-- The SHA-256 initial hash state. -/
def shaH0 : List Nat :=
  [1779033703, 3144134277, 1013904242, 2773480762, 1359893119, 2600822924, 528734635, 1541459225]

/-- SHA-256 padding: a `0x80` byte, zeros to 56 mod 64, and the bit length
as eight big-endian bytes. -/
def sha256Pad (msg : List Nat) : List Nat :=
  msg ++ 128 :: List.replicate ((119 - msg.length % 64) % 64) 0 ++ natToBytesBE 8 (8 * msg.length)

/-- Big-endian 32-bit words of a byte list. -/
def bytesToWords : List Nat → List Nat
  | a :: b :: c :: d :: rest => (a * 16777216 + b * 65536 + c * 256 + d) :: bytesToWords rest
  | _ => []

/-- The 48 extension words of the SHA-256 message schedule, from a sliding
window of the last 16 words. -/
def scheduleRounds : Nat → List Nat → List Nat
  | 0, _ => []
  | f + 1, ws =>
    match ws with
    | [w0, w1, w2, w3, w4, w5, w6, w7, w8, w9, w10, w11, w12, w13, w14, w15] =>
      let nw := w32 (w0 + shaSmallSigma0 w1 + w9 + shaSmallSigma1 w14)
      nw :: scheduleRounds f [w1, w2, w3, w4, w5, w6, w7, w8, w9, w10, w11, w12, w13, w14, w15, nw]
    | _ => []

/-- One SHA-256 compression round. -/
def compressStep (st : List Nat) (kw : Nat × Nat) : List Nat :=
  match st with
  | [a, b, c, d, e, f, g, h] =>
    let t1 := w32 (h + shaBigSigma1 e + shaCh e f g + kw.1 + kw.2)
    let t2 := w32 (shaBigSigma0 a + shaMaj a b c)
    [w32 (t1 + t2), a, b, c, w32 (d + t1), e, f, g]
  | st => st

/-- The 64 compression rounds over the paired constants and schedule. -/
def compressRounds : List (Nat × Nat) → List Nat → List Nat
  | [], st => st
  | kw :: rest, st => compressRounds rest (compressStep st kw)

/-- Elementwise 32-bit addition of hash states. -/
def addStates (a b : List Nat) : List Nat :=
  List.zipWith (fun x y => w32 (x + y)) a b

/-- Process a padded message, 16 words per block. -/
def sha256Blocks : List Nat → List Nat → List Nat
  | w0 :: w1 :: w2 :: w3 :: w4 :: w5 :: w6 :: w7 :: w8 :: w9 :: w10 :: w11 :: w12 :: w13 ::
      w14 :: w15 :: rest, st =>
    let first := [w0, w1, w2, w3, w4, w5, w6, w7, w8, w9, w10, w11, w12, w13, w14, w15]
    let sched := first ++ scheduleRounds 48 first
    sha256Blocks rest (addStates st (compressRounds (shaK.zip sched) st))
  | _, st => st

/-- SHA-256 of a byte list, as the 32 digest bytes. -/
def sha256 (msg : List Nat) : List Nat :=
  (sha256Blocks (bytesToWords (sha256Pad msg)) shaH0).flatMap (natToBytesBE 4)

/-- HMAC-SHA256 with the standard ipad/opad construction. -/
def hmacSha256 (key msg : List Nat) : List Nat :=
  let k0 :=
    if 64 < key.length then sha256 key ++ List.replicate 32 0
    else key ++ List.replicate (64 - key.length) 0
  sha256 ((k0.map fun b => b ^^^ 92) ++ sha256 ((k0.map fun b => b ^^^ 54) ++ msg))

/-- Known-answer check: SHA-256 of the empty message. -/
theorem sha256_empty_vector :
    hexEncode (sha256 []) =
      "e3b0c44298fc1c149afbf4c8996fb92427ae41e4649b934ca495991b7852b855" := by decide

/-- Known-answer check: SHA-256 of the ASCII bytes of "abc". -/
theorem sha256_abc_vector :
    hexEncode (sha256 (utf8Encode "abc")) =
      "ba7816bf8f01cfea414140de5dae2223b00361a396177a9cb410ff61f20015ad" := by decide

/-! ## AES-256-GCM -/

/-- The AES S-box. -/
def sboxTable : List Nat :=
  [99, 124, 119, 123, 242, 107, 111, 197, 48, 1, 103, 43, 254, 215, 171, 118,
   202, 130, 201, 125, 250, 89, 71, 240, 173, 212, 162, 175, 156, 164, 114, 192,
   183, 253, 147, 38, 54, 63, 247, 204, 52, 165, 229, 241, 113, 216, 49, 21,
   4, 199, 35, 195, 24, 150, 5, 154, 7, 18, 128, 226, 235, 39, 178, 117,
   9, 131, 44, 26, 27, 110, 90, 160, 82, 59, 214, 179, 41, 227, 47, 132,
   83, 209, 0, 237, 32, 252, 177, 91, 106, 203, 190, 57, 74, 76, 88, 207,
   208, 239, 170, 251, 67, 77, 51, 133, 69, 249, 2, 127, 80, 60, 159, 168,
   81, 163, 64, 143, 146, 157, 56, 245, 188, 182, 218, 33, 16, 255, 243, 210,
   205, 12, 19, 236, 95, 151, 68, 23, 196, 167, 126, 61, 100, 93, 25, 115,
   96, 129, 79, 220, 34, 42, 144, 136, 70, 238, 184, 20, 222, 94, 11, 219,
   224, 50, 58, 10, 73, 6, 36, 92, 194, 211, 172, 98, 145, 149, 228, 121,
   231, 200, 55, 109, 141, 213, 78, 169, 108, 86, 244, 234, 101, 122, 174, 8,
   186, 120, 37, 46, 28, 166, 180, 198, 232, 221, 116, 31, 75, 189, 139, 138,
   112, 62, 181, 102, 72, 3, 246, 14, 97, 53, 87, 185, 134, 193, 29, 158,
   225, 248, 152, 17, 105, 217, 142, 148, 155, 30, 135, 233, 206, 85, 40, 223,
   140, 161, 137, 13, 191, 230, 66, 104, 65, 153, 45, 15, 176, 84, 187, 22]

def sbox (b : Nat) : Nat := sboxTable.getD b 0

/-- S-box applied to the four bytes of a 32-bit word. -/
def subWord (w : Nat) : Nat :=
  sbox (w / 16777216 % 256) * 16777216 + sbox (w / 65536 % 256) * 65536 +
    sbox (w / 256 % 256) * 256 + sbox (w % 256)

/-- Left byte rotation of a 32-bit word. -/
def rotWord (w : Nat) : Nat := w % 16777216 * 256 + w / 16777216 % 256

/-- Eight further round-key words from the previous eight (AES-256 expansion). -/
def aesNextWords (rcon : Nat) (wn : List Nat) : List Nat :=
  match wn with
  | [k0, k1, k2, k3, k4, k5, k6, k7] =>
    let n0 := k0 ^^^ (subWord (rotWord k7) ^^^ rcon * 16777216)
    let n1 := k1 ^^^ n0
    let n2 := k2 ^^^ n1
    let n3 := k3 ^^^ n2
    let n4 := k4 ^^^ subWord n3
    let n5 := k5 ^^^ n4
    let n6 := k6 ^^^ n5
    let n7 := k7 ^^^ n6
    [n0, n1, n2, n3, n4, n5, n6, n7]
  | _ => []

def aesExpandGroups : List Nat → List Nat → List Nat
  | [], _ => []
  | r :: rs, wn =>
    let nx := aesNextWords r wn
    nx ++ aesExpandGroups rs nx

/-- The sixty 32-bit round-key words of AES-256. -/
def aesKeyWords (key : List Nat) : List Nat :=
  let kw := bytesToWords key
  (kw ++ aesExpandGroups [1, 2, 4, 8, 16, 32, 64] kw).take 60

/-- 16-byte chunks of a byte list. -/
def chunk16 : List Nat → List (List Nat)
  | b0 :: b1 :: b2 :: b3 :: b4 :: b5 :: b6 :: b7 :: b8 :: b9 :: b10 :: b11 :: b12 :: b13 ::
      b14 :: b15 :: rest =>
    [b0, b1, b2, b3, b4, b5, b6, b7, b8, b9, b10, b11, b12, b13, b14, b15] :: chunk16 rest
  | _ => []

/-- The fifteen 16-byte round keys of AES-256. -/
def aesRoundKeys (key : List Nat) : List (List Nat) :=
  chunk16 ((aesKeyWords key).flatMap (natToBytesBE 4))

def subBytes (st : List Nat) : List Nat := st.map sbox

/-- ShiftRows on the column-major byte layout of the AES state. -/
def shiftRows (st : List Nat) : List Nat :=
  match st with
  | [b0, b1, b2, b3, b4, b5, b6, b7, b8, b9, b10, b11, b12, b13, b14, b15] =>
    [b0, b5, b10, b15, b4, b9, b14, b3, b8, b13, b2, b7, b12, b1, b6, b11]
  | st => st

/-- Multiplication by x in GF(2^8) with the AES reduction polynomial. -/
def xtime (b : Nat) : Nat := if b < 128 then 2 * b else (2 * b) ^^^ 283

/-- MixColumns, one column of four bytes at a time. -/
def mixColumns : List Nat → List Nat
  | a0 :: a1 :: a2 :: a3 :: rest =>
    (xtime a0 ^^^ (xtime a1 ^^^ a1) ^^^ a2 ^^^ a3) ::
      (a0 ^^^ xtime a1 ^^^ (xtime a2 ^^^ a2) ^^^ a3) ::
      (a0 ^^^ a1 ^^^ xtime a2 ^^^ (xtime a3 ^^^ a3)) ::
      ((xtime a0 ^^^ a0) ^^^ a1 ^^^ a2 ^^^ xtime a3) :: mixColumns rest
  | st => st

def addRoundKey (rk st : List Nat) : List Nat := xorBytes st rk

/-- The middle and final AES rounds; the final round key is applied without
MixColumns. -/
def aesMiddleRounds : List (List Nat) → List Nat → List Nat
  | [rk], st => addRoundKey rk (shiftRows (subBytes st))
  | rk :: rest, st => aesMiddleRounds rest (addRoundKey rk (mixColumns (shiftRows (subBytes st))))
  | [], st => st

/-- AES block encryption over precomputed round keys. -/
def aesEncryptBlock (rks : List (List Nat)) (block : List Nat) : List Nat :=
  match rks with
  | rk0 :: rest => aesMiddleRounds rest (addRoundKey rk0 block)
  | [] => block

/-- Known-answer check: FIPS-197 AES-256 single-block encryption. -/
theorem aes256_fips197_vector :
    aesEncryptBlock
      (aesRoundKeys [0, 1, 2, 3, 4, 5, 6, 7, 8, 9, 10, 11, 12, 13, 14, 15, 16, 17, 18, 19,
        20, 21, 22, 23, 24, 25, 26, 27, 28, 29, 30, 31])
      [0, 17, 34, 51, 68, 85, 102, 119, 136, 153, 170, 187, 204, 221, 238, 255] =
      [142, 162, 183, 202, 81, 103, 69, 191, 234, 252, 73, 144, 75, 73, 96, 137] := by decide

/-- One step of carry-less GF(2^128) multiplication, consuming the bits of
the first operand most-significant first. -/
def gf128MulAux : Nat → Nat → Nat → Nat → Nat
  | 0, _, z, _ => z
  | f + 1, x, z, v =>
    gf128MulAux f x (if (x >>> f) &&& 1 = 1 then z ^^^ v else z)
      (if v &&& 1 = 1 then (v >>> 1) ^^^ 0xe1000000000000000000000000000000 else v >>> 1)

/-- GF(2^128) multiplication in the GCM bit order. -/
def gf128Mul (x y : Nat) : Nat := gf128MulAux 128 x 0 y

/-- The GHASH absorption loop over complete 16-byte blocks. -/
def ghashAux (h : Nat) : List Nat → Nat → Nat
  | b0 :: b1 :: b2 :: b3 :: b4 :: b5 :: b6 :: b7 :: b8 :: b9 :: b10 :: b11 :: b12 :: b13 ::
      b14 :: b15 :: rest, y =>
    ghashAux h rest
      (gf128Mul (y ^^^ bytesToNatBE [b0, b1, b2, b3, b4, b5, b6, b7, b8, b9, b10, b11, b12,
        b13, b14, b15]) h)
  | _, y => y

/-- Zero padding to a multiple of sixteen bytes. -/
def gcmPad16 (l : List Nat) : List Nat :=
  l ++ List.replicate ((16 - l.length % 16) % 16) 0

/-- GHASH over the associated data and ciphertext with the length block. -/
def ghash (h : Nat) (aad ct : List Nat) : Nat :=
  ghashAux h
    (gcmPad16 aad ++ gcmPad16 ct ++ natToBytesBE 8 (8 * aad.length) ++
      natToBytesBE 8 (8 * ct.length)) 0

/-- The GCM pre-counter block: for IVs that are not 12 bytes (Node accepts
any length; this code uses 16-byte IVs) it is the GHASH of the padded IV and
its length. -/
def gcmJ0 (h : Nat) (iv : List Nat) : List Nat :=
  if iv.length = 12 then iv ++ [0, 0, 0, 1]
  else natToBytesBE 16 (ghashAux h (gcmPad16 iv ++ natToBytesBE 8 0 ++
    natToBytesBE 8 (8 * iv.length)) 0)

/-- Increment of the low 32 bits of a counter block. -/
def incCounter32 (block : List Nat) : List Nat :=
  block.take 12 ++ natToBytesBE 4 ((bytesToNatBE (block.drop 12) + 1) % 4294967296)

/-- CTR keystream blocks. -/
def gcmKeystream (rks : List (List Nat)) : Nat → List Nat → List Nat
  | 0, _ => []
  | f + 1, counter => aesEncryptBlock rks counter ++ gcmKeystream rks f (incCounter32 counter)

/-- AES-256-GCM authenticated encryption: ciphertext and 16-byte tag. -/
def gcmEncrypt (key iv aad pt : List Nat) : List Nat × List Nat :=
  let rks := aesRoundKeys key
  let h := bytesToNatBE (aesEncryptBlock rks (List.replicate 16 0))
  let j0 := gcmJ0 h iv
  let stream := gcmKeystream rks ((pt.length + 15) / 16) (incCounter32 j0)
  let ct := xorBytes pt stream
  let tag := xorBytes (aesEncryptBlock rks j0) (natToBytesBE 16 (ghash h aad ct))
  (ct, tag)

/-- AES-256-GCM authenticated decryption; `none` when the tag does not match
(`decipher.final()` throwing in Node). -/
def gcmDecrypt (key iv aad tag ct : List Nat) : Option (List Nat) :=
  let rks := aesRoundKeys key
  let h := bytesToNatBE (aesEncryptBlock rks (List.replicate 16 0))
  let j0 := gcmJ0 h iv
  let expected := xorBytes (aesEncryptBlock rks j0) (natToBytesBE 16 (ghash h aad ct))
  if expected = tag then
    some (xorBytes ct (gcmKeystream rks ((ct.length + 15) / 16) (incCounter32 j0)))
  else none

/-- Known-answer check: NIST AES-256-GCM vector (zero key, 12-byte zero IV,
one zero block). -/
theorem gcm_nist_vector :
    gcmEncrypt (List.replicate 32 0) (List.replicate 12 0) [] (List.replicate 16 0) =
      (hexDecode "cea7403d4d606b6e074ec5d3baf39d18",
        hexDecode "d0d1c8a799996bf0265b98b5d48ab919") := by decide

/-! ## JSON values -/

/-- The JSON data model as JavaScript's `JSON.parse` / `JSON.stringify` see
it.  Numbers are carried as integers: the repository only ever serializes
integer timestamps, and the parser approximates non-integer literals by
their integer part (see `parseFracExp`). -/
inductive Json where
  | str : String → Json
  | num : Int → Json
  | bool : Bool → Json
  | null : Json
  | arr : List Json → Json
  | obj : List (String × Json) → Json

def digitChar (n : Nat) : Char := Char.ofNat (48 + n)

/-- Decimal digits of a natural number, most significant first. -/
def natDigitsAux : Nat → Nat → List Char
  | 0, _ => []
  | f + 1, n => if n < 10 then [digitChar n] else natDigitsAux f (n / 10) ++ [digitChar (n % 10)]

def natDigits (n : Nat) : List Char := natDigitsAux (n + 1) n

/-- JavaScript's decimal rendering of an integer. -/
def intDigits (i : Int) : List Char :=
  if i < 0 then '-' :: natDigits i.natAbs else natDigits i.toNat

/-- The `JSON.stringify` escape for one character. -/
def escChar (c : Char) : List Char :=
  if c = '"' then ['\\', '"']
  else if c = '\\' then ['\\', '\\']
  else if c = '\x08' then ['\\', 'b']
  else if c = '\x09' then ['\\', 't']
  else if c = '\x0a' then ['\\', 'n']
  else if c = '\x0c' then ['\\', 'f']
  else if c = '\x0d' then ['\\', 'r']
  else if c.toNat < 32 then
    ['\\', 'u', '0', '0', hexDigitChar (c.toNat / 16), hexDigitChar (c.toNat % 16)]
  else [c]

def escString (l : List Char) : List Char := l.flatMap escChar

mutual

/-- `JSON.stringify`, compact form, keys in insertion order. -/
def strAux : Json → List Char
  | .str s => '"' :: escString s.data ++ ['"']
  | .num i => intDigits i
  | .bool b => if b then "true".data else "false".data
  | .null => "null".data
  | .arr es => '[' :: strElems es ++ [']']
  | .obj ms => '{' :: strMembers ms ++ ['}']

def strElems : List Json → List Char
  | [] => []
  | [e] => strAux e
  | e :: es => strAux e ++ ',' :: strElems es

def strMembers : List (String × Json) → List Char
  | [] => []
  | [(k, v)] => '"' :: escString k.data ++ '"' :: ':' :: strAux v
  | (k, v) :: ms => ('"' :: escString k.data ++ '"' :: ':' :: strAux v) ++ ',' :: strMembers ms

end

def Json.stringify (j : Json) : String := ⟨strAux j⟩

/-- Whether a field list already binds a key. -/
def hasKey : List (String × Json) → String → Bool
  | [], _ => false
  | (k0, _) :: rest, k => k0 = k || hasKey rest k

/-- First binding of a key, the object property access order of JavaScript. -/
def lookupField : List (String × Json) → String → Option Json
  | [], _ => none
  | (k0, v) :: rest, k => if k0 = k then some v else lookupField rest k

/-- JavaScript property access on a JSON value: bindings for objects,
`undefined` (here `none`) for everything else.  Access on `null` throws and
is handled at call sites. -/
def Json.lookup : Json → String → Option Json
  | .obj ms, k => lookupField ms k
  | _, _ => none

mutual

/-- Well-formed JSON values: object keys are distinct at every level.  All
values this repository serializes are well-formed; `JSON.parse` output always
is, because duplicate keys overwrite. -/
def Json.wf : Json → Bool
  | .obj ms => wfFields ms
  | .arr es => wfElems es
  | _ => true

def wfFields : List (String × Json) → Bool
  | [] => true
  | (k, v) :: rest => !hasKey rest k && Json.wf v && wfFields rest

def wfElems : List Json → Bool
  | [] => true
  | v :: rest => Json.wf v && wfElems rest

end

/-! ## JSON parsing -/

def isWsChar (c : Char) : Bool := c = ' ' || c = '\x0a' || c = '\x0d' || c = '\x09'

def skipWs : List Char → List Char
  | [] => []
  | c :: cs => if isWsChar c then skipWs cs else c :: cs

def isDigitChar (c : Char) : Bool := '0' ≤ c && c ≤ '9'

/-- Consume a maximal digit run, folding into an accumulator. -/
def parseDigits : List Char → Nat → Nat × List Char
  | [], acc => (acc, [])
  | c :: cs, acc =>
    if isDigitChar c then parseDigits cs (acc * 10 + (c.toNat - 48)) else (acc, c :: cs)

/-- JSON escape values for single-character escapes. -/
def escVal (e : Char) : Option Char :=
  if e = '"' then some '"'
  else if e = '\\' then some '\\'
  else if e = '/' then some '/'
  else if e = 'b' then some '\x08'
  else if e = 'f' then some '\x0c'
  else if e = 'n' then some '\x0a'
  else if e = 'r' then some '\x0d'
  else if e = 't' then some '\x09'
  else none

/-- The scalar for a `\\uXXXX` escape; surrogate code units collapse to the
replacement character (Unicode scalar strings cannot carry them; the
repository never emits such escapes). -/
def charFor (n : Nat) : Char :=
  if n < 55296 ∨ 57344 ≤ n then Char.ofNat n else replacementChar

/-- The JSON string-body scanner, after the opening quote.  One fuel unit per
scalar, so fuel exceeding the character count always suffices. -/
def parseStrAux : Nat → List Char → Option (List Char × List Char)
  | 0, _ => none
  | f + 1, cs =>
    match cs with
    | [] => none
    | c :: cs1 =>
      if c = '"' then some ([], cs1)
      else if c = '\\' then
        let e := cs1.headD ' '
        if e = 'u' then
          let h1 := hexVal (cs1.tail.headD ' ')
          let h2 := hexVal (cs1.tail.tail.headD ' ')
          let h3 := hexVal (cs1.tail.tail.tail.headD ' ')
          let h4 := hexVal (cs1.tail.tail.tail.tail.headD ' ')
          if h1.isSome && h2.isSome && h3.isSome && h4.isSome then
            (parseStrAux f cs1.tail.tail.tail.tail.tail).map fun p =>
              (charFor (((h1.getD 0 * 16 + h2.getD 0) * 16 + h3.getD 0) * 16 + h4.getD 0) ::
                p.1, p.2)
          else none
        else
          match escVal e with
          | some ch => (parseStrAux f cs1.tail).map fun p => (ch :: p.1, p.2)
          | none => none
      else if c.toNat < 32 then none
      else (parseStrAux f cs1).map fun p => (c :: p.1, p.2)

/-- Optional fraction and exponent of a JSON number literal.  The numeric
value is approximated by the integer part: the repository serializes only
integers, so the approximation is exact on every value it produces. -/
def parseExp (n : Nat) (cs : List Char) : Option (Nat × List Char) :=
  if cs.headD ' ' = 'e' || cs.headD ' ' = 'E' then
    let cs1 := if cs.tail.headD ' ' = '+' || cs.tail.headD ' ' = '-' then cs.tail.tail else cs.tail
    if isDigitChar (cs1.headD ' ') then some (n, (parseDigits cs1 0).2) else none
  else some (n, cs)

def parseFracExp (n : Nat) (cs : List Char) : Option (Nat × List Char) :=
  if cs.headD ' ' = '.' then
    if isDigitChar (cs.tail.headD ' ') then parseExp n (parseDigits cs.tail 0).2 else none
  else parseExp n cs

/-- An unsigned JSON number literal: either `0` or a nonzero leading digit
followed by more digits, then fraction and exponent. -/
def parseNumber (cs : List Char) : Option (Nat × List Char) :=
  let c := cs.headD ' '
  if c = '0' then
    if isDigitChar (cs.tail.headD ' ') then none else parseFracExp 0 cs.tail
  else if isDigitChar c then
    let p := parseDigits cs 0
    parseFracExp p.1 p.2
  else none

def parseTrue (cs : List Char) : Option (Json × List Char) :=
  if cs.take 3 = ['r', 'u', 'e'] then some (Json.bool true, cs.drop 3) else none

def parseFalse (cs : List Char) : Option (Json × List Char) :=
  if cs.take 4 = ['a', 'l', 's', 'e'] then some (Json.bool false, cs.drop 4) else none

def parseNull (cs : List Char) : Option (Json × List Char) :=
  if cs.take 3 = ['u', 'l', 'l'] then some (Json.null, cs.drop 3) else none

/-- Insertion of an object member with JavaScript's duplicate-key behavior:
a repeated key keeps its position and takes the later value. -/
def insertPair : List (String × Json) → String → Json → List (String × Json)
  | [], k, v => [(k, v)]
  | (k0, v0) :: rest, k, v =>
    if k0 = k then (k0, v) :: rest else (k0, v0) :: insertPair rest k v

/-- Parser mode: a value, the members of an object after `{` or a comma, or
the elements of an array after `[` or a comma. -/
inductive PMode where
  | val : PMode
  | members : List (String × Json) → PMode
  | elems : List Json → PMode

/-- The fueled recursive-descent JSON parser.  Every recursive call consumes
at least one character and spends one fuel unit, so fuel exceeding twice the
input length always suffices (array nesting costs two units per bracket). -/
def parseCore : Nat → PMode → List Char → Option (Json × List Char)
  | 0, _, _ => none
  | f + 1, PMode.val, cs =>
    let cs0 := skipWs cs
    let c := cs0.headD ' '
    if cs0.isEmpty then none
    else if c = '"' then (parseStrAux (f + 1) cs0.tail).map fun p => (Json.str ⟨p.1⟩, p.2)
    else if c = '{' then
      let cs1 := skipWs cs0.tail
      if cs1.headD ' ' = '}' then some (Json.obj [], cs1.tail)
      else parseCore f (PMode.members []) cs1
    else if c = '[' then
      let cs1 := skipWs cs0.tail
      if cs1.headD ' ' = ']' then some (Json.arr [], cs1.tail)
      else parseCore f (PMode.elems []) cs1
    else if c = 't' then parseTrue cs0.tail
    else if c = 'f' then parseFalse cs0.tail
    else if c = 'n' then parseNull cs0.tail
    else if c = '-' then (parseNumber cs0.tail).map fun p => (Json.num (-(p.1 : Int)), p.2)
    else (parseNumber cs0).map fun p => (Json.num (p.1 : Int), p.2)
  | f + 1, PMode.members acc, cs =>
    let cs0 := skipWs cs
    if cs0.headD ' ' = '"' then
      (parseStrAux (f + 1) cs0.tail).bind fun kp =>
        let cs2 := skipWs kp.2
        if cs2.headD ' ' = ':' then
          (parseCore f PMode.val cs2.tail).bind fun vp =>
            let cs4 := skipWs vp.2
            if cs4.headD ' ' = ',' then
              parseCore f (PMode.members (insertPair acc ⟨kp.1⟩ vp.1)) cs4.tail
            else if cs4.headD ' ' = '}' then
              some (Json.obj (insertPair acc ⟨kp.1⟩ vp.1), cs4.tail)
            else none
        else none
    else none
  | f + 1, PMode.elems acc, cs =>
    (parseCore f PMode.val cs).bind fun vp =>
      let cs2 := skipWs vp.2
      if cs2.headD ' ' = ',' then parseCore f (PMode.elems (acc ++ [vp.1])) cs2.tail
      else if cs2.headD ' ' = ']' then some (Json.arr (acc ++ [vp.1]), cs2.tail)
      else none

/-- `JSON.parse`: parse one value and require only whitespace after it. -/
def Json.parse (s : String) : Option Json :=
  match parseCore (2 * s.length + 2) PMode.val s.data with
  | some (j, rest) => if (skipWs rest).isEmpty then some j else none
  | none => none

/-! ## Parsing inverts serialization -/

theorem skipWs_cons (c : Char) (t : List Char) (h : isWsChar c = false) :
    skipWs (c :: t) = c :: t := by
  simp [skipWs, h]

theorem parseStrAux_escape2 (e ch : Char) (he : escVal e = some ch) (hu : e ≠ 'u')
    (rest : List Char) (f : Nat) :
    parseStrAux (f + 1) ('\\' :: e :: rest) =
      (parseStrAux f rest).map fun p => (ch :: p.1, p.2) := by
  have h1 : ('\\' : Char) = '"' → False := by decide
  simp only [parseStrAux, if_neg h1, if_pos rfl, if_true, List.headD_cons, List.tail_cons,
    if_neg hu, he]

theorem parseStrAux_escString : ∀ (l : List Char) (rest : List Char) (f : Nat),
    (escString l).length < f →
    parseStrAux f (escString l ++ '"' :: rest) = some (l, rest)
  | [], rest, f, hf => by
    obtain ⟨f', rfl⟩ : ∃ g, f = g + 1 := ⟨f - 1, by omega⟩
    simp only [escString, List.flatMap_nil, List.nil_append, parseStrAux, if_pos rfl, if_true]
  | c :: l, rest, f, hf => by
    have hlen : (escString (c :: l)).length = (escChar c).length + (escString l).length := by
      simp [escString, List.flatMap_cons]
    have hpos : 1 ≤ (escChar c).length := by
      unfold escChar
      repeat' split
      all_goals simp
    obtain ⟨f', rfl⟩ : ∃ g, f = g + 1 := ⟨f - 1, by omega⟩
    have ih := parseStrAux_escString l rest f' (by omega)
    have hstep : escString (c :: l) ++ '"' :: rest =
        escChar c ++ (escString l ++ '"' :: rest) := by
      simp [escString, List.flatMap_cons]
    rw [hstep]
    by_cases h1 : c = '"'
    · subst h1
      rw [show escChar '"' = ['\\', '"'] from rfl]
      rw [List.cons_append, List.cons_append, List.nil_append,
        parseStrAux_escape2 '"' '"' (by decide) (by decide), ih]
      rfl
    · by_cases h2 : c = '\\'
      · subst h2
        rw [show escChar '\\' = ['\\', '\\'] from rfl]
        rw [List.cons_append, List.cons_append, List.nil_append,
          parseStrAux_escape2 '\\' '\\' (by decide) (by decide), ih]
        rfl
      · by_cases h3 : c = '\x08'
        · subst h3
          rw [show escChar '\x08' = ['\\', 'b'] from rfl]
          rw [List.cons_append, List.cons_append, List.nil_append,
            parseStrAux_escape2 'b' '\x08' (by decide) (by decide), ih]
          rfl
        · by_cases h4 : c = '\x09'
          · subst h4
            rw [show escChar '\x09' = ['\\', 't'] from rfl]
            rw [List.cons_append, List.cons_append, List.nil_append,
              parseStrAux_escape2 't' '\x09' (by decide) (by decide), ih]
            rfl
          · by_cases h5 : c = '\x0a'
            · subst h5
              rw [show escChar '\x0a' = ['\\', 'n'] from rfl]
              rw [List.cons_append, List.cons_append, List.nil_append,
                parseStrAux_escape2 'n' '\x0a' (by decide) (by decide), ih]
              rfl
            · by_cases h6 : c = '\x0c'
              · subst h6
                rw [show escChar '\x0c' = ['\\', 'f'] from rfl]
                rw [List.cons_append, List.cons_append, List.nil_append,
                  parseStrAux_escape2 'f' '\x0c' (by decide) (by decide), ih]
                rfl
              · by_cases h7 : c = '\x0d'
                · subst h7
                  rw [show escChar '\x0d' = ['\\', 'r'] from rfl]
                  rw [List.cons_append, List.cons_append, List.nil_append,
                    parseStrAux_escape2 'r' '\x0d' (by decide) (by decide), ih]
                  rfl
                · by_cases h8 : c.toNat < 32
                  · rw [show escChar c = ['\\', 'u', '0', '0', hexDigitChar (c.toNat / 16),
                        hexDigitChar (c.toNat % 16)] by
                      unfold escChar
                      rw [if_neg h1, if_neg h2, if_neg h3, if_neg h4, if_neg h5, if_neg h6,
                        if_neg h7, if_pos h8]]
                    have hv1 : hexVal (hexDigitChar (c.toNat / 16)) = some (c.toNat / 16) :=
                      hexVal_hexDigitChar _ (by omega)
                    have hv2 : hexVal (hexDigitChar (c.toNat % 16)) = some (c.toNat % 16) :=
                      hexVal_hexDigitChar _ (by omega)
                    simp only [List.cons_append, List.nil_append, parseStrAux,
                      if_neg (show ('\\' : Char) = '"' → False by decide), if_pos rfl,
                      List.headD_cons, List.tail_cons, if_pos (rfl : ('u' : Char) = 'u'),
                      hv1, hv2, show hexVal '0' = some 0 from rfl, Option.isSome_some,
                      Bool.and_self, if_pos rfl, Option.getD_some, ih]
                    have hn : ((0 * 16 + 0) * 16 + c.toNat / 16) * 16 + c.toNat % 16 =
                        c.toNat := by omega
                    rw [hn]
                    have hc : charFor c.toNat = c := by
                      unfold charFor
                      rw [if_pos (by omega), Char.ofNat_toNat]
                    rw [hc]
                    rfl
                  · rw [show escChar c = [c] by
                      unfold escChar
                      rw [if_neg h1, if_neg h2, if_neg h3, if_neg h4, if_neg h5, if_neg h6,
                        if_neg h7, if_neg h8]]
                    have h32 : (c.toNat < 32) = False := by simp [h8]
                    simp only [List.cons_append, List.nil_append, parseStrAux, if_neg h1,
                      if_neg h2, h32, if_false, ih]
                    rfl

theorem natDigitsAux_stable : ∀ f g n : Nat, n < f → n < g →
    natDigitsAux f n = natDigitsAux g n
  | 0, _, _, hf, _ => absurd hf (by omega)
  | _ + 1, 0, _, _, hg => absurd hg (by omega)
  | f + 1, g + 1, n, hf, hg => by
    by_cases h : n < 10
    · simp [natDigitsAux, h]
    · simp only [natDigitsAux, if_neg h]
      rw [natDigitsAux_stable f g (n / 10) (by omega) (by omega)]

theorem natDigits_lt10 (n : Nat) (h : n < 10) : natDigits n = [digitChar n] := by
  unfold natDigits
  simp [natDigitsAux, h]

theorem natDigits_succ (n : Nat) (h : 10 ≤ n) :
    natDigits n = natDigits (n / 10) ++ [digitChar (n % 10)] := by
  unfold natDigits
  conv_lhs => rw [natDigitsAux, if_neg (by omega : ¬ n < 10)]
  rw [natDigitsAux_stable n (n / 10 + 1) (n / 10) (by omega) (by omega)]

theorem natDigits_head (n : Nat) :
    ∃ d t, natDigits n = digitChar d :: t ∧ d < 10 ∧ (0 < n → 0 < d) := by
  induction n using Nat.strong_induction_on with
  | _ n ih =>
    by_cases h : n < 10
    · exact ⟨n, [], by rw [natDigits_lt10 n h], h, fun hn => hn⟩
    · obtain ⟨d, t, ht, hd, hpos⟩ := ih (n / 10) (by omega)
      refine ⟨d, t ++ [digitChar (n % 10)], ?_, hd, fun _ => hpos (by omega)⟩
      rw [natDigits_succ n (by omega), ht]
      rfl

theorem digitChar_props : ∀ d, d < 10 →
    isDigitChar (digitChar d) = true ∧ (digitChar d).toNat - 48 = d := by decide

theorem digitChar_ne_zero : ∀ d, d < 10 → 0 < d → (digitChar d = '0') = False := by decide

theorem parseDigits_notDigit (cs : List Char) (acc : Nat)
    (h : isDigitChar (cs.headD ' ') = false) : parseDigits cs acc = (acc, cs) := by
  cases cs with
  | nil => rfl
  | cons c t =>
    simp only [List.headD_cons] at h
    simp [parseDigits, h]

theorem parseDigits_natDigits (n : Nat) : ∀ (rest : List Char) (acc : Nat),
    parseDigits (natDigits n ++ rest) acc =
      parseDigits rest (acc * 10 ^ (natDigits n).length + n) := by
  induction n using Nat.strong_induction_on with
  | _ n ih =>
    intro rest acc
    by_cases h : n < 10
    · rw [natDigits_lt10 n h]
      obtain ⟨hd, hv⟩ := digitChar_props n h
      simp only [List.cons_append, List.nil_append, parseDigits, hd, if_true, hv,
        List.length_cons, List.length_nil]
      congr 1
    · rw [natDigits_succ n (by omega), List.append_assoc,
        ih (n / 10) (by omega) ([digitChar (n % 10)] ++ rest) acc]
      obtain ⟨hd, hv⟩ := digitChar_props (n % 10) (by omega)
      simp only [List.cons_append, List.nil_append, parseDigits, hd, if_true, hv]
      congr 1
      simp only [List.length_append, List.length_cons, List.length_nil]
      have h10 : n / 10 * 10 + n % 10 = n := by omega
      calc (acc * 10 ^ (natDigits (n / 10)).length + n / 10) * 10 + n % 10
          = acc * (10 ^ (natDigits (n / 10)).length * 10) + (n / 10 * 10 + n % 10) := by ring
        _ = acc * 10 ^ ((natDigits (n / 10)).length + 1) + n := by rw [h10, pow_succ]

/-- A character that ends a JSON number literal. -/
def numDelim (cs : List Char) : Bool :=
  !isDigitChar (cs.headD ' ') && !(cs.headD ' ' = '.' : Bool) &&
    !(cs.headD ' ' = 'e' : Bool) && !(cs.headD ' ' = 'E' : Bool)

theorem numDelim_spec (cs : List Char) (h : numDelim cs = true) :
    isDigitChar (cs.headD ' ') = false ∧ cs.headD ' ' ≠ '.' ∧ cs.headD ' ' ≠ 'e' ∧
      cs.headD ' ' ≠ 'E' := by
  unfold numDelim at h
  simp only [Bool.and_eq_true, Bool.not_eq_true', decide_eq_false_iff_not] at h
  exact ⟨h.1.1.1, h.1.1.2, h.1.2, h.2⟩

theorem parseExp_delim (n : Nat) (cs : List Char) (h : numDelim cs = true) :
    parseExp n cs = some (n, cs) := by
  obtain ⟨_, _, h3, h4⟩ := numDelim_spec cs h
  unfold parseExp
  rw [if_neg (by simp only [Bool.or_eq_true, decide_eq_true_eq, not_or]; exact ⟨h3, h4⟩)]

theorem parseFracExp_delim (n : Nat) (cs : List Char) (h : numDelim cs = true) :
    parseFracExp n cs = some (n, cs) := by
  obtain ⟨_, h2, _, _⟩ := numDelim_spec cs h
  unfold parseFracExp
  rw [if_neg h2]
  exact parseExp_delim n cs h

theorem parseNumber_natDigits (n : Nat) (rest : List Char) (h : numDelim rest = true) :
    parseNumber (natDigits n ++ rest) = some (n, rest) := by
  obtain ⟨hd1, _, _, _⟩ := numDelim_spec rest h
  by_cases h0 : n = 0
  · subst h0
    rw [natDigits_lt10 0 (by omega)]
    unfold parseNumber
    simp only [List.cons_append, List.nil_append, List.headD_cons, List.tail_cons]
    rw [if_pos (by decide : digitChar 0 = '0'), if_neg (by simpa using hd1)]
    exact parseFracExp_delim 0 rest h
  · obtain ⟨d, t, ht, hd10, hdpos⟩ := natDigits_head n
    unfold parseNumber
    rw [ht, List.cons_append]
    simp only [List.headD_cons]
    rw [if_neg (by simp [digitChar_ne_zero d hd10 (hdpos (by omega))]),
      if_pos (digitChar_props d hd10).1]
    rw [← List.cons_append, ← ht, parseDigits_natDigits n rest 0,
      parseDigits_notDigit rest _ hd1]
    simp only [Nat.zero_mul, Nat.zero_add]
    exact parseFracExp_delim n rest h

theorem digitChar_facts : ∀ d, d < 10 → isWsChar (digitChar d) = false ∧ digitChar d ≠ ']' ∧
    digitChar d ≠ '"' ∧ digitChar d ≠ '{' ∧ digitChar d ≠ '[' ∧ digitChar d ≠ 't' ∧
    digitChar d ≠ 'f' ∧ digitChar d ≠ 'n' ∧ digitChar d ≠ '-' := by decide

/-- A serialized value is nonempty, starts with a non-whitespace character,
and never starts with a closing bracket. -/
theorem strAux_head (j : Json) :
    ∃ c t, strAux j = c :: t ∧ isWsChar c = false ∧ c ≠ ']' := by
  cases j with
  | str s => exact ⟨'"', _, rfl, by decide, by decide⟩
  | num i =>
    show ∃ c t, intDigits i = c :: t ∧ _
    unfold intDigits
    by_cases h : i < 0
    · rw [if_pos h]
      exact ⟨'-', _, rfl, by decide, by decide⟩
    · rw [if_neg h]
      obtain ⟨d, t, ht, hd, _⟩ := natDigits_head i.toNat
      exact ⟨digitChar d, t, ht, (digitChar_facts d hd).1, (digitChar_facts d hd).2.1⟩
  | bool b =>
    cases b
    · exact ⟨'f', _, rfl, by decide, by decide⟩
    · exact ⟨'t', _, rfl, by decide, by decide⟩
  | null => exact ⟨'n', _, rfl, by decide, by decide⟩
  | arr es => exact ⟨'[', _, rfl, by decide, by decide⟩
  | obj ms => exact ⟨'{', _, rfl, by decide, by decide⟩

theorem strMembers_head (k : String) (v : Json) (ms : List (String × Json)) :
    ∃ t, strMembers ((k, v) :: ms) = '"' :: t := by
  cases ms with
  | nil => exact ⟨_, rfl⟩
  | cons m ms => exact ⟨_, rfl⟩

theorem hasKey_false_forall : ∀ (l : List (String × Json)) (k : String),
    hasKey l k = false → ∀ p ∈ l, p.1 ≠ k
  | [], _, _, p, hp => absurd hp (by simp)
  | (k0, v0) :: rest, k, h, p, hp => by
    simp only [hasKey, Bool.or_eq_false_iff, decide_eq_false_iff_not] at h
    rcases List.mem_cons.mp hp with rfl | hp2
    · exact h.1
    · exact hasKey_false_forall rest k h.2 p hp2

theorem hasKey_append_single (acc : List (String × Json)) (k k2 : String) (v : Json) :
    hasKey (acc ++ [(k, v)]) k2 = (hasKey acc k2 || (k = k2 : Bool)) := by
  induction acc with
  | nil => simp [hasKey]
  | cons p rest ih =>
    obtain ⟨k0, v0⟩ := p
    simp [hasKey, ih, Bool.or_assoc]

theorem insertPair_append (acc : List (String × Json)) (k : String) (v : Json)
    (h : hasKey acc k = false) : insertPair acc k v = acc ++ [(k, v)] := by
  induction acc with
  | nil => rfl
  | cons p rest ih =>
    obtain ⟨k0, v0⟩ := p
    simp only [hasKey, Bool.or_eq_false_iff, decide_eq_false_iff_not] at h
    simp only [insertPair, if_neg h.1, List.cons_append]
    rw [ih h.2]

theorem wfFields_cons (k : String) (v : Json) (ms : List (String × Json))
    (h : wfFields ((k, v) :: ms) = true) :
    hasKey ms k = false ∧ Json.wf v = true ∧ wfFields ms = true := by
  simp only [wfFields, Bool.and_eq_true, Bool.not_eq_true'] at h
  exact ⟨h.1.1, h.1.2, h.2⟩

theorem wfElems_cons (v : Json) (es : List Json) (h : wfElems (v :: es) = true) :
    Json.wf v = true ∧ wfElems es = true := by
  simp only [wfElems, Bool.and_eq_true] at h
  exact h


mutual

/-- Parsing inverts serialization for a well-formed value, with any
number-delimiting tail and any sufficient fuel. -/
theorem parseCore_strAux : ∀ (j : Json) (rest : List Char) (f : Nat),
    Json.wf j = true → 2 * (strAux j).length < f → numDelim rest = true →
    parseCore f PMode.val (strAux j ++ rest) = some (j, rest)
  | .str s, rest, f, _, hf, _ => by
    obtain ⟨sl⟩ := s
    obtain ⟨f', rfl⟩ : ∃ g, f = g + 1 := ⟨f - 1, by omega⟩
    have hlen : (strAux (.str ⟨sl⟩)).length = (escString sl).length + 2 := by
      simp [strAux]
    simp only [parseCore, strAux, List.cons_append, List.append_assoc, List.nil_append]
    rw [skipWs_cons _ _ (by decide)]
    rw [if_neg (by simp)]
    simp only [List.headD_cons, List.tail_cons]
    rw [if_true]
    rw [parseStrAux_escString sl rest (f' + 1) (by omega)]
    rfl
  | .num i, rest, f, _, hf, hd => by
    obtain ⟨f', rfl⟩ : ∃ g, f = g + 1 := ⟨f - 1, by omega⟩
    by_cases hneg : i < 0
    · have hsh : strAux (.num i) = '-' :: natDigits i.natAbs := by
        simp [strAux, intDigits, if_pos hneg]
      rw [hsh]
      simp only [parseCore, List.cons_append]
      rw [skipWs_cons _ _ (by decide)]
      rw [if_neg (by simp)]
      simp only [List.headD_cons, List.tail_cons]
      rw [if_neg (by decide), if_neg (by decide), if_neg (by decide), if_neg (by decide),
        if_neg (by decide), if_neg (by decide), if_true]
      rw [parseNumber_natDigits i.natAbs rest hd]
      simp only [Option.map_some']
      rw [show -((i.natAbs : Nat) : Int) = i by omega]
    · obtain ⟨d, t, ht, hd10, _⟩ := natDigits_head i.toNat
      have hsh : strAux (.num i) = natDigits i.toNat := by
        simp [strAux, intDigits, if_neg hneg]
      obtain ⟨hws, _, hq, hb, hk, htc, hfc, hn, hm⟩ := digitChar_facts d hd10
      rw [hsh, ht]
      simp only [parseCore, List.cons_append]
      rw [skipWs_cons _ _ hws]
      rw [if_neg (by simp)]
      simp only [List.headD_cons, List.tail_cons]
      rw [if_neg hq, if_neg hb, if_neg hk, if_neg htc, if_neg hfc, if_neg hn, if_neg hm]
      rw [← List.cons_append, ← ht, parseNumber_natDigits i.toNat rest hd]
      simp only [Option.map_some']
      rw [show ((i.toNat : Nat) : Int) = i by omega]
  | .bool true, rest, f, _, hf, _ => by
    obtain ⟨f', rfl⟩ : ∃ g, f = g + 1 := ⟨f - 1, by omega⟩
    rfl
  | .bool false, rest, f, _, hf, _ => by
    obtain ⟨f', rfl⟩ : ∃ g, f = g + 1 := ⟨f - 1, by omega⟩
    rfl
  | .null, rest, f, _, hf, _ => by
    obtain ⟨f', rfl⟩ : ∃ g, f = g + 1 := ⟨f - 1, by omega⟩
    rfl
  | .arr [], rest, f, _, hf, _ => by
    obtain ⟨f', rfl⟩ : ∃ g, f = g + 1 := ⟨f - 1, by omega⟩
    rfl
  | .arr (e :: es'), rest, f, hwf, hf, _ => by
    obtain ⟨f', rfl⟩ : ∃ g, f = g + 1 := ⟨f - 1, by omega⟩
    rw [show strAux (.arr (e :: es')) = '[' :: (strElems (e :: es') ++ [']']) from rfl]
    simp only [parseCore, List.cons_append, List.append_assoc, List.nil_append]
    rw [skipWs_cons _ _ (by decide)]
    rw [if_neg (by simp)]
    simp only [List.headD_cons, List.tail_cons]
    rw [if_neg (by decide), if_neg (by decide), if_true]
    obtain ⟨c, t, hct, hws, hne⟩ := strAux_head e
    obtain ⟨t2, ht2⟩ : ∃ t2, strElems (e :: es') ++ ']' :: rest = c :: t2 := by
      cases es' with
      | nil =>
        refine ⟨t ++ ']' :: rest, ?_⟩
        rw [show strElems [e] = strAux e from rfl, hct]
        rfl
      | cons e2 es2 =>
        refine ⟨t ++ ',' :: strElems (e2 :: es2) ++ ']' :: rest, ?_⟩
        rw [show strElems (e :: e2 :: es2) = strAux e ++ ',' :: strElems (e2 :: es2) from rfl,
          hct]
        simp
    rw [ht2, skipWs_cons _ _ hws]
    rw [show (c :: t2).headD ' ' = c from rfl]
    rw [if_neg hne, ← ht2]
    rw [parseCore_strElems (e :: es') [] rest f' (by simp) (by simpa [Json.wf] using hwf)
      (by
        have : (strAux (.arr (e :: es'))).length = (strElems (e :: es')).length + 2 := by
          simp [strAux]
        omega)]
    simp
  | .obj [], rest, f, _, hf, _ => by
    obtain ⟨f', rfl⟩ : ∃ g, f = g + 1 := ⟨f - 1, by omega⟩
    rfl
  | .obj ((k, v) :: ms'), rest, f, hwf, hf, _ => by
    obtain ⟨f', rfl⟩ : ∃ g, f = g + 1 := ⟨f - 1, by omega⟩
    rw [show strAux (.obj ((k, v) :: ms')) =
      '{' :: (strMembers ((k, v) :: ms') ++ ['}']) from rfl]
    simp only [parseCore, List.cons_append, List.append_assoc, List.nil_append]
    rw [skipWs_cons _ _ (by decide)]
    rw [if_neg (by simp)]
    simp only [List.headD_cons, List.tail_cons]
    rw [if_neg (by decide), if_true]
    obtain ⟨t, hct⟩ := strMembers_head k v ms'
    have ht2 : strMembers ((k, v) :: ms') ++ '}' :: rest = '"' :: (t ++ '}' :: rest) := by
      rw [hct]; rfl
    rw [ht2, skipWs_cons _ _ (by decide)]
    rw [show ('"' :: (t ++ '}' :: rest)).headD ' ' = '"' from rfl]
    rw [if_neg (by decide), ← ht2]
    rw [parseCore_strMembers ((k, v) :: ms') [] rest f' (by simp)
      (by simpa [Json.wf] using hwf) (by intro k2 _; rfl)
      (by
        have : (strAux (.obj ((k, v) :: ms'))).length =
            (strMembers ((k, v) :: ms')).length + 2 := by
          simp [strAux]
        omega)]
    simp

/-- Parsing inverts serialization for a nonempty member list, appending onto
already-accumulated members whose keys are disjoint from it. -/
theorem parseCore_strMembers : ∀ (ms acc : List (String × Json)) (rest : List Char) (f : Nat),
    ms ≠ [] → wfFields ms = true → (∀ k ∈ ms.map Prod.fst, hasKey acc k = false) →
    2 * (strMembers ms).length + 1 < f →
    parseCore f (PMode.members acc) (strMembers ms ++ '}' :: rest) =
      some (Json.obj (acc ++ ms), rest)
  | [], _, _, _, hne, _, _, _ => absurd rfl hne
  | (k, v) :: ms', acc, rest, f, _, hwf, hfresh, hf => by
    obtain ⟨kl⟩ := k
    obtain ⟨f', rfl⟩ : ∃ g, f = g + 1 := ⟨f - 1, by omega⟩
    obtain ⟨hkey, hwv, hwms'⟩ := wfFields_cons _ v ms' hwf
    have hk : hasKey acc ⟨kl⟩ = false := hfresh _ (by simp)
    have hlen1 : (strMembers [(⟨kl⟩, v)]).length = (escString kl).length + (strAux v).length
        + 3 := by
      rw [show strMembers [(⟨kl⟩, v)] = '"' :: escString kl ++ '"' :: ':' :: strAux v from rfl]
      simp only [List.length_cons, List.length_append]
      omega
    cases ms' with
    | nil =>
      have hsh : strMembers [(⟨kl⟩, v)] ++ '}' :: rest =
          '"' :: (escString kl ++ '"' :: (':' :: (strAux v ++ '}' :: rest))) := by
        rw [show strMembers [(⟨kl⟩, v)] =
          '"' :: escString kl ++ '"' :: ':' :: strAux v from rfl]
        simp
      rw [hsh]
      simp only [parseCore]
      rw [skipWs_cons _ _ (by decide)]
      rw [show ('"' :: (escString kl ++ '"' :: (':' :: (strAux v ++ '}' :: rest)))).headD ' '
        = '"' from rfl]
      rw [if_pos rfl]
      rw [show ('"' :: (escString kl ++ '"' :: (':' :: (strAux v ++ '}' :: rest)))).tail
        = escString kl ++ '"' :: (':' :: (strAux v ++ '}' :: rest)) from rfl]
      rw [parseStrAux_escString kl _ (f' + 1) (by omega)]
      simp only [Option.some_bind]
      rw [skipWs_cons _ _ (by decide)]
      rw [show ((':' :: (strAux v ++ '}' :: rest)) : List Char).headD ' ' = ':' from rfl]
      rw [if_pos rfl]
      rw [show ((':' :: (strAux v ++ '}' :: rest)) : List Char).tail =
        strAux v ++ '}' :: rest from rfl]
      rw [parseCore_strAux v ('}' :: rest) f' hwv (by omega) rfl]
      simp only [Option.some_bind]
      rw [skipWs_cons _ _ (by decide)]
      rw [show (('}' :: rest) : List Char).headD ' ' = '}' from rfl]
      rw [if_neg (by decide), if_pos rfl]
      rw [insertPair_append acc _ v hk]
      rfl
    | cons m2 ms2 =>
      have hlen2 : (strMembers ((⟨kl⟩, v) :: m2 :: ms2)).length =
          (strMembers [(⟨kl⟩, v)]).length + 1 + (strMembers (m2 :: ms2)).length := by
        rw [show strMembers ((⟨kl⟩, v) :: m2 :: ms2) =
          ('"' :: escString kl ++ '"' :: ':' :: strAux v) ++ ',' :: strMembers (m2 :: ms2)
          from rfl]
        rw [show strMembers [(⟨kl⟩, v)] =
          '"' :: escString kl ++ '"' :: ':' :: strAux v from rfl]
        simp only [List.length_cons, List.length_append]
        omega
      have hsh : strMembers ((⟨kl⟩, v) :: m2 :: ms2) ++ '}' :: rest =
          '"' :: (escString kl ++ '"' :: (':' :: (strAux v ++
            ',' :: (strMembers (m2 :: ms2) ++ '}' :: rest)))) := by
        rw [show strMembers ((⟨kl⟩, v) :: m2 :: ms2) =
          ('"' :: escString kl ++ '"' :: ':' :: strAux v) ++ ',' :: strMembers (m2 :: ms2)
          from rfl]
        simp
      rw [hsh]
      simp only [parseCore]
      rw [skipWs_cons _ _ (by decide)]
      rw [show ('"' :: (escString kl ++ '"' :: (':' :: (strAux v ++
        ',' :: (strMembers (m2 :: ms2) ++ '}' :: rest))))).headD ' ' = '"' from rfl]
      rw [if_pos rfl]
      rw [show ('"' :: (escString kl ++ '"' :: (':' :: (strAux v ++
        ',' :: (strMembers (m2 :: ms2) ++ '}' :: rest))))).tail = escString kl ++
        '"' :: (':' :: (strAux v ++ ',' :: (strMembers (m2 :: ms2) ++ '}' :: rest)))
        from rfl]
      rw [parseStrAux_escString kl _ (f' + 1) (by omega)]
      simp only [Option.some_bind]
      rw [skipWs_cons _ _ (by decide)]
      rw [show ((':' :: (strAux v ++ ',' :: (strMembers (m2 :: ms2) ++ '}' :: rest)))
        : List Char).headD ' ' = ':' from rfl]
      rw [if_pos rfl]
      rw [show ((':' :: (strAux v ++ ',' :: (strMembers (m2 :: ms2) ++ '}' :: rest)))
        : List Char).tail = strAux v ++ ',' :: (strMembers (m2 :: ms2) ++ '}' :: rest)
        from rfl]
      rw [parseCore_strAux v (',' :: (strMembers (m2 :: ms2) ++ '}' :: rest)) f' hwv
        (by omega) rfl]
      simp only [Option.some_bind]
      rw [skipWs_cons _ _ (by decide)]
      rw [show ((',' :: (strMembers (m2 :: ms2) ++ '}' :: rest)) : List Char).headD ' '
        = ',' from rfl]
      rw [if_pos rfl]
      rw [show ((',' :: (strMembers (m2 :: ms2) ++ '}' :: rest)) : List Char).tail
        = strMembers (m2 :: ms2) ++ '}' :: rest from rfl]
      rw [insertPair_append acc _ v hk]
      rw [show acc ++ (⟨kl⟩, v) :: m2 :: ms2 = (acc ++ [(⟨kl⟩, v)]) ++ (m2 :: ms2) by simp]
      exact parseCore_strMembers (m2 :: ms2) (acc ++ [(⟨kl⟩, v)]) rest f' (by simp) hwms'
        (by
          intro k2 hk2
          rw [hasKey_append_single]
          have h1 : hasKey acc k2 = false :=
            hfresh k2 (by rw [List.map_cons]; exact List.mem_cons_of_mem _ hk2)
          have h2 : (⟨kl⟩ : String) ≠ k2 := by
            intro he
            obtain ⟨p, hp, hpe⟩ := List.mem_map.mp hk2
            exact hasKey_false_forall (m2 :: ms2) ⟨kl⟩ hkey p hp (by rw [hpe, ← he])
          simp [h1, h2])
        (by omega)

/-- Parsing inverts serialization for a nonempty element list. -/
theorem parseCore_strElems : ∀ (es acc : List Json) (rest : List Char) (f : Nat),
    es ≠ [] → wfElems es = true → 2 * (strElems es).length + 1 < f →
    parseCore f (PMode.elems acc) (strElems es ++ ']' :: rest) =
      some (Json.arr (acc ++ es), rest)
  | [], _, _, _, hne, _, _ => absurd rfl hne
  | e :: es', acc, rest, f, _, hwf, hf => by
    obtain ⟨f', rfl⟩ : ∃ g, f = g + 1 := ⟨f - 1, by omega⟩
    obtain ⟨hwe, hwes'⟩ := wfElems_cons e es' hwf
    cases es' with
    | nil =>
      have hsh : strElems [e] ++ ']' :: rest = strAux e ++ ']' :: rest := rfl
      rw [hsh]
      simp only [parseCore]
      rw [parseCore_strAux e (']' :: rest) f' hwe
        (by
          have : (strElems [e]).length = (strAux e).length := by simp [strElems]
          omega)
        rfl]
      simp only [Option.some_bind]
      rw [skipWs_cons _ _ (by decide)]
      rw [show ((']' :: rest) : List Char).headD ' ' = ']' from rfl]
      rw [if_neg (by decide), if_pos rfl]
      rfl
    | cons e2 es2 =>
      have hsh : strElems (e :: e2 :: es2) ++ ']' :: rest =
          strAux e ++ ',' :: (strElems (e2 :: es2) ++ ']' :: rest) := by
        rw [show strElems (e :: e2 :: es2) = strAux e ++ ',' :: strElems (e2 :: es2) from rfl]
        simp
      have hlen : (strElems (e :: e2 :: es2)).length =
          (strAux e).length + 1 + (strElems (e2 :: es2)).length := by
        rw [show strElems (e :: e2 :: es2) = strAux e ++ ',' :: strElems (e2 :: es2) from rfl]
        simp only [List.length_cons, List.length_append]
        omega
      rw [hsh]
      simp only [parseCore]
      rw [parseCore_strAux e (',' :: (strElems (e2 :: es2) ++ ']' :: rest)) f' hwe
        (by omega) rfl]
      simp only [Option.some_bind]
      rw [skipWs_cons _ _ (by decide)]
      rw [show ((',' :: (strElems (e2 :: es2) ++ ']' :: rest)) : List Char).headD ' '
        = ',' from rfl]
      rw [if_pos rfl]
      rw [show ((',' :: (strElems (e2 :: es2) ++ ']' :: rest)) : List Char).tail
        = strElems (e2 :: es2) ++ ']' :: rest from rfl]
      rw [show acc ++ e :: e2 :: es2 = (acc ++ [e]) ++ (e2 :: es2) by simp]
      exact parseCore_strElems (e2 :: es2) (acc ++ [e]) rest f' (by simp) hwes' (by omega)

end

/-- `JSON.parse` inverts `JSON.stringify` on well-formed values. -/
theorem Json.parse_stringify (j : Json) (h : Json.wf j = true) :
    Json.parse (Json.stringify j) = some j := by
  unfold Json.parse Json.stringify
  have hp := parseCore_strAux j [] (2 * (strAux j).length + 2) h (by omega) (by decide)
  rw [List.append_nil] at hp
  rw [show (String.mk (strAux j)).data = strAux j from rfl,
    show (String.mk (strAux j)).length = (strAux j).length from rfl, hp]
  rfl

/-- Serialization is injective on well-formed values. -/
theorem Json.stringify_inj (j j' : Json) (h : Json.wf j = true) (h' : Json.wf j' = true)
    (he : Json.stringify j = Json.stringify j') : j = j' := by
  have h1 := Json.parse_stringify j h
  rw [he, Json.parse_stringify j' h'] at h1
  exact (Option.some.injEq _ _ ▸ h1).symm

/-! ## The JavaScript fragments shared by both services -/

/-- JavaScript property access on a parsed JSON value, as in
`encryptedPackage.key` or `clientData.type`: a binding lookup on objects,
`undefined` (`none`) on other values, and a `TypeError` on `null`. -/
def propAccess (j : Json) (k : String) : Except String (Option Json) :=
  match j with
  | .null => .error ("Cannot read properties of null (reading '" ++ k ++ "')")
  | .obj ms => .ok (lookupField ms k)
  | _ => .ok none

/-- JavaScript strict equality between a JSON field value (possibly absent)
and a string. -/
def jsEqStr (v : Option Json) (s : String) : Bool :=
  match v with
  | some (.str t) => t == s
  | _ => false

/-- JavaScript `String.prototype.includes`: substring containment. -/
def strContains : List Char → List Char → Bool
  | [], pat => pat.isEmpty
  | c :: t, pat => pat.isPrefixOf (c :: t) || strContains t pat

def strIncludes (hay pat : String) : Bool := strContains hay.data pat.data

/-! ## PromiseCrypto (src/server/crypto.ts) -/

namespace PromiseCrypto

/-- The object `encryptPromise` serializes (crypto.ts lines 23–28).  The inner
plaintext fields are `content`, `privateKey`, `fingerprint` and `timestamp`. -/
def combinedData (content privateKey fingerprintData : String) (now : Nat) : Json :=
  .obj [("content", .str content), ("privateKey", .str privateKey),
    ("fingerprint", .str fingerprintData), ("timestamp", .num now)]

/-- The associated data `Buffer.from('promiseshare-auth')` set by
`cipher.setAAD` (crypto.ts line 34). -/
def promiseAAD : List Nat := utf8Encode "promiseshare-auth"

/-- `PromiseCrypto.encryptPromise` (crypto.ts lines 18–50).  The
`crypto.randomBytes(32)` / `crypto.randomBytes(16)` samples and `Date.now()`
are explicit arguments `key`, `iv`, `now`; the byte strings they stand for
are the big-endian renderings of `key mod 2^256` and `iv mod 2^128`.  The
envelope field holding the ciphertext is named `encrypted`. -/
def encryptPromise (content privateKey fingerprintData : String) (now : Nat)
    (key iv : Nat) : String :=
  let keyB := natToBytesBE 32 key
  let ivB := natToBytesBE 16 iv
  let pt := utf8Encode (Json.stringify (combinedData content privateKey fingerprintData now))
  let ct := (gcmEncrypt keyB ivB promiseAAD pt).1
  let tag := (gcmEncrypt keyB ivB promiseAAD pt).2
  let pkg : Json := .obj [("key", .str (hexEncode keyB)), ("iv", .str (hexEncode ivB)),
    ("authTag", .str (hexEncode tag)), ("encrypted", .str (hexEncode ct))]
  base64Encode (utf8Encode (Json.stringify pkg))

/-- `Buffer.from(x, 'hex')` applied to a JSON field value: a string decodes
forgivingly; a missing field or other value throws.  (Node would accept an
array of byte values; that shape never arises here and is modelled as a
throw.) -/
def bufferFromHex (v : Option Json) : Except String (List Nat) :=
  match v with
  | some (.str s) => .ok (hexDecode s)
  | _ => .error "The first argument must be of type string"

/-- The body of `decryptPromise` before its catch (crypto.ts lines 59–75):
decode, parse, extract the hex fields, authenticate and decrypt, and parse
the plaintext.  `createDecipheriv` validates the key and IV lengths. -/
def decryptPromiseCore (encryptedData : String) : Except String Json := do
  let pkg ← match Json.parse (utf8Decode (base64Decode encryptedData)) with
    | some j => Except.ok j
    | none => Except.error "Unexpected token in JSON"
  let key ← bufferFromHex (← propAccess pkg "key")
  let iv ← bufferFromHex (← propAccess pkg "iv")
  let authTag ← bufferFromHex (← propAccess pkg "authTag")
  if key.length ≠ 32 then Except.error "Invalid key length" else
  if iv.length = 0 then Except.error "Invalid initialization vector" else do
  let encField ← match (← propAccess pkg "encrypted") with
    | some (.str s) => Except.ok (hexDecode s)
    | _ => Except.error "The first argument must be of type string"
  let pt ← match gcmDecrypt key iv promiseAAD authTag encField with
    | some pt => Except.ok pt
    | none => Except.error "Unsupported state or unable to authenticate data"
  match Json.parse (utf8Decode pt) with
  | some j => Except.ok j
  | none => Except.error "Unexpected token in JSON"

/-- `PromiseCrypto.decryptPromise` (crypto.ts lines 53–79): any failure is
rethrown as `Failed to decrypt promise data`.  The TypeScript returns the
parsed object; it is carried here as the parsed JSON value. -/
def decryptPromise (encryptedData : String) : Except String Json :=
  match decryptPromiseCore encryptedData with
  | .ok j => .ok j
  | .error _ => .error "Failed to decrypt promise data"

/-- The certificate body built by `generateCertificate` (crypto.ts lines
87–93), with `Date.now()` an explicit argument.  The fingerprint-bearing
field is named `creatorFingerprint`. -/
def certData (promiseId publicKey creatorFingerprint : String) (now : Nat) : Json :=
  .obj [("promiseId", .str promiseId), ("publicKey", .str publicKey),
    ("creatorFingerprint", .str creatorFingerprint), ("issuedAt", .num now),
    ("issuer", .str "PromiseShare Authority")]

/-- The HMAC key `sha256('promiseshare-cert-authority')` (crypto.ts line 96). -/
def certAuthorityKey : List Nat := sha256 (utf8Encode "promiseshare-cert-authority")

/-- `PromiseCrypto.generateCertificate` (crypto.ts lines 82–105). -/
def generateCertificate (promiseId publicKey creatorFingerprint : String) (now : Nat) :
    String :=
  let signature := hexEncode (hmacSha256 certAuthorityKey
    (utf8Encode (Json.stringify (certData promiseId publicKey creatorFingerprint now))))
  base64Encode (utf8Encode (Json.stringify (.obj
    [("data", certData promiseId publicKey creatorFingerprint now),
     ("signature", .str signature)])))

/-- The body of `validateCertificate` before its catch (crypto.ts lines
109–120).  `JSON.stringify(cert.data)` with `data` absent is `undefined`,
and `hmac.update(undefined)` throws. -/
def validateCertificateCore (certificate : String) : Except String Bool := do
  let cert ← match Json.parse (utf8Decode (base64Decode certificate)) with
    | some j => Except.ok j
    | none => Except.error "Unexpected token in JSON"
  let dataField ← propAccess cert "data"
  let dataJ ← match dataField with
    | some j => Except.ok j
    | none => Except.error "The data argument must not be undefined"
  let expectedSignature := hexEncode (hmacSha256 certAuthorityKey
    (utf8Encode (Json.stringify dataJ)))
  let sigField ← propAccess cert "signature"
  Except.ok (jsEqStr sigField expectedSignature)

/-- `PromiseCrypto.validateCertificate` (crypto.ts lines 108–124): the
`publicKey` parameter is declared but never read by the body, and every
failure returns `false`. -/
def validateCertificate (certificate publicKey : String) : Bool :=
  match validateCertificateCore certificate with
  | .ok b => b
  | .error _ => false

/-- `PromiseCrypto.hashFingerprint` (crypto.ts lines 127–129). -/
def hashFingerprint (fingerprintData : String) : String :=
  hexEncode (sha256 (utf8Encode fingerprintData))

end PromiseCrypto

/-! ## WebAuthnPromiseService (the WebAuthn promise service module) -/

namespace WebAuthnPromiseService

/-- The snapshot `generateSigningChallenge` hashes: the exact fields, in the
exact key order, of its `promiseData` parameter. -/
structure PromiseSnapshot where
  id : String
  title : String
  content : String
  deliveryDate : String
  creatorId : String

def snapshotJson (p : PromiseSnapshot) : Json :=
  .obj [("id", .str p.id), ("title", .str p.title), ("content", .str p.content),
    ("deliveryDate", .str p.deliveryDate), ("creatorId", .str p.creatorId)]

/-- `WebAuthnPromiseService.generateSigningChallenge` (service lines 30–43):
the base64url rendering of the SHA-256 hash of the canonical JSON
serialization of the snapshot. -/
def generateSigningChallenge (promiseData : PromiseSnapshot) : String :=
  base64urlEncode (sha256 (utf8Encode (Json.stringify (snapshotJson promiseData))))

/-- `WebAuthnPromiseService.encryptPromiseContent` (service lines 46–62):
AES-256-GCM under `sha256(key)` with a random IV made explicit, and no
associated data.  The result is a bare JSON string, not base64-wrapped. -/
def encryptPromiseContent (content key : String) (iv : Nat) : String :=
  let keyBuffer := sha256 (utf8Encode key)
  let ivB := natToBytesBE 16 iv
  let ct := (gcmEncrypt keyBuffer ivB [] (utf8Encode content)).1
  let tag := (gcmEncrypt keyBuffer ivB [] (utf8Encode content)).2
  Json.stringify (.obj [("encrypted", .str (hexEncode ct)), ("iv", .str (hexEncode ivB)),
    ("authTag", .str (hexEncode tag))])

/-- The `creator` sub-record of a signed promise. -/
structure Creator where
  id : String
  username : String
deriving DecidableEq

/-- The `signature` sub-record of a signed promise (a WebAuthn assertion). -/
structure SignatureData where
  credentialId : String
  clientDataJSON : String
  authenticatorData : String
  signature : String
  userHandle : String
deriving DecidableEq

/-- The `SignedPromise` interface (service lines 4–25): the downloadable,
self-contained artifact. -/
structure SignedPromise where
  id : String
  title : String
  content : String
  deliveryDate : String
  createdAt : String
  creator : Creator
  encryptedContent : String
  signature : SignatureData
  publicKey : String
  challenge : String
  rpId : String
deriving DecidableEq

/-- The fields `createSignedPromiseFile` reads from its `promiseData`
argument. -/
structure PromiseRecord where
  id : String
  title : String
  content : String
  deliveryDate : String
  createdAt : String
  creator : Creator
  creatorId : String

/-- `WebAuthnPromiseService.createSignedPromiseFile` (service lines 84–113),
with `Date.now()` and the content-encryption IV explicit, and the
`REPLIT_DOMAINS` environment variable an explicit optional argument
(`|| 'localhost'` treats an empty string as unset). -/
def createSignedPromiseFile (promiseData : PromiseRecord) (signatureData : SignatureData)
    (publicKey challenge : String) (now iv : Nat) (rpIdEnv : Option String) : SignedPromise :=
  let encryptionKey :=
    promiseData.id ++ "-" ++ promiseData.creatorId ++ "-" ++ String.mk (natDigits now)
  { id := promiseData.id
    title := promiseData.title
    content := promiseData.content
    deliveryDate := promiseData.deliveryDate
    createdAt := promiseData.createdAt
    creator := promiseData.creator
    encryptedContent := encryptPromiseContent promiseData.content encryptionKey iv
    signature := signatureData
    publicKey := publicKey
    challenge := challenge
    rpId := match rpIdEnv with
      | some s => if s = "" then "localhost" else s
      | none => "localhost" }

/-- The verification result record (service lines 116–123). -/
structure VerificationResult where
  isValid : Bool
  isSignatureValid : Bool
  isChallengeValid : Bool
  isDataIntact : Bool
  creator : String
  errorDetails : Option String
deriving DecidableEq

/-- The challenge `verifySignedPromise` recomputes (service lines 126–132):
`generateSigningChallenge` over the artifact's own fields, with
`creatorId := signedPromise.creator.id`. -/
def expectedChallengeOf (a : SignedPromise) : String :=
  generateSigningChallenge ⟨a.id, a.title, a.content, a.deliveryDate, a.creator.id⟩

/-- The client-data conjunction of `verifySignedPromise` (service lines
136–144): parse `clientDataJSON` (base64url, UTF-8, JSON — a parse failure
throws to the outer catch), then
`type === 'webauthn.get' && challenge === signedPromise.challenge &&
origin.includes(signedPromise.rpId)` with JavaScript's short-circuit and
property-access semantics: access on a parsed `null` throws, `.includes` on
a missing or non-string, non-array `origin` throws, and an array `origin`
uses `Array.prototype.includes`. -/
def clientDataCheck (a : SignedPromise) : Except String Bool := do
  let cd ← match Json.parse (utf8Decode (base64Decode a.signature.clientDataJSON)) with
    | some j => Except.ok j
    | none => Except.error "Unexpected token in JSON"
  let tA ← propAccess cd "type"
  let chA ← propAccess cd "challenge"
  if jsEqStr tA "webauthn.get" && jsEqStr chA a.challenge then
    let oA ← propAccess cd "origin"
    match oA with
    | some (.str s) => Except.ok (strIncludes s a.rpId)
    | some (.arr xs) =>
      Except.ok (xs.any fun j => match j with | .str t => t == a.rpId | _ => false)
    | _ => Except.error "includes is not a function"
  else
    Except.ok false

/-- `WebAuthnPromiseService.verifyWebAuthnSignature` (service lines
179–211).  The platform key import and asymmetric check
(`crypto.createPublicKey` + `crypto.verify`), including their internal
catch-to-`false`, are abstracted as the total `rsaVerify` argument applied
to the signed message, the PEM key, and the signature bytes.  The
`expectedChallenge` parameter is declared by the source but never read. -/
def verifyWebAuthnSignature (rsaVerify : List Nat → String → List Nat → Bool)
    (signature : SignatureData) (publicKeyPem : String) (expectedChallenge : String) : Bool :=
  let clientDataHash := sha256 (base64Decode signature.clientDataJSON)
  let signedData := base64Decode signature.authenticatorData ++ clientDataHash
  rsaVerify signedData publicKeyPem (base64Decode signature.signature)

/-- The body of `verifySignedPromise` before its catch (service lines
124–164). -/
def verifySignedPromiseCore (rsaVerify : List Nat → String → List Nat → Bool)
    (signedPromise : SignedPromise) : Except String VerificationResult := do
  let expectedChallenge := expectedChallengeOf signedPromise
  let isChallengeValid := signedPromise.challenge == expectedChallenge
  let isClientDataValid ← clientDataCheck signedPromise
  let isSignatureValid := verifyWebAuthnSignature rsaVerify signedPromise.signature
    signedPromise.publicKey signedPromise.challenge
  let isDataIntact := true
  let isValid := isChallengeValid && isClientDataValid && isSignatureValid && isDataIntact
  Except.ok
    { isValid := isValid
      isSignatureValid := isSignatureValid
      isChallengeValid := isChallengeValid
      isDataIntact := isDataIntact
      creator := signedPromise.creator.username
      errorDetails := if isValid then none else some ("Challenge: " ++ toString isChallengeValid
        ++ ", ClientData: " ++ toString isClientDataValid ++ ", Signature: "
        ++ toString isSignatureValid) }

/-- `WebAuthnPromiseService.verifySignedPromise` (service lines 116–176):
the catch arm returns the all-`false` record with the thrown message as
`errorDetails` and `creator?.username || 'Unknown'`. -/
def verifySignedPromise (rsaVerify : List Nat → String → List Nat → Bool)
    (signedPromise : SignedPromise) : VerificationResult :=
  match verifySignedPromiseCore rsaVerify signedPromise with
  | .ok r => r
  | .error e =>
    { isValid := false
      isSignatureValid := false
      isChallengeValid := false
      isDataIntact := false
      creator := if signedPromise.creator.username = "" then "Unknown"
        else signedPromise.creator.username
      errorDetails := some e }

end WebAuthnPromiseService

/-! ## AES-GCM roundtrip -/

theorem xorBytes_length : ∀ a b : List Nat, (xorBytes a b).length = min a.length b.length
  | [], _ => by simp [xorBytes]
  | _ :: _, [] => by simp [xorBytes]
  | a :: as, b :: bs => by
    simp [xorBytes, xorBytes_length as bs]
    omega

theorem xorBytes_isBytes : ∀ a b : List Nat, IsBytes a → IsBytes b →
    IsBytes (xorBytes a b)
  | [], _, _, _ => by intro x hx; simp [xorBytes] at hx
  | _ :: _, [], _, _ => by intro x hx; simp [xorBytes] at hx
  | a :: as, b :: bs, ha, hb => by
    intro x hx
    simp only [xorBytes, List.mem_cons] at hx
    rcases hx with rfl | hx
    · have h1 : a < 256 := ha a (by simp)
      have h2 : b < 256 := hb b (by simp)
      calc a ^^^ b < 2 ^ 8 := Nat.xor_lt_two_pow h1 h2
        _ = 256 := by norm_num
    · exact xorBytes_isBytes as bs (fun y hy => ha y (by simp [hy]))
        (fun y hy => hb y (by simp [hy])) x hx

/-- Xoring the same keystream twice recovers the plaintext when the stream
is at least as long. -/
theorem xorBytes_cancel : ∀ a b : List Nat, a.length ≤ b.length →
    xorBytes (xorBytes a b) b = a
  | [], _, _ => by cases ‹List Nat› <;> rfl
  | a :: as, b :: bs, h => by
    simp only [xorBytes]
    rw [Nat.xor_cancel_right, xorBytes_cancel as bs (by simpa using h)]
  | _ :: _, [], h => by simp at h

theorem sboxTable_length : sboxTable.length = 256 := by decide

theorem sbox_lt : ∀ b : Nat, sbox b < 256 := by
  intro b
  by_cases h : b < 256
  · exact (by decide : ∀ i, i < 256 → sbox i < 256) b h
  · unfold sbox
    rw [List.getD_eq_default _ _ (by rw [sboxTable_length]; omega)]
    omega

theorem xtime_lt (b : Nat) (h : b < 256) : xtime b < 256 :=
  (by decide : ∀ i, i < 256 → xtime i < 256) b h

theorem subBytes_length (st : List Nat) : (subBytes st).length = st.length := by
  simp [subBytes]

theorem subBytes_isBytes (st : List Nat) : IsBytes (subBytes st) := by
  intro b hb
  obtain ⟨a, _, rfl⟩ := List.mem_map.mp hb
  exact sbox_lt a

theorem shiftRows_length (st : List Nat) : (shiftRows st).length = st.length := by
  unfold shiftRows
  split
  · simp_all
  · rfl

theorem shiftRows_isBytes (st : List Nat) (h : IsBytes st) : IsBytes (shiftRows st) := by
  unfold shiftRows
  split
  · intro x hx
    apply h
    simp only [List.mem_cons, List.not_mem_nil, or_false] at hx ⊢
    tauto
  · exact h

theorem mixColumns_length : ∀ st : List Nat, (mixColumns st).length = st.length
  | [] => rfl
  | [_] => rfl
  | [_, _] => rfl
  | [_, _, _] => rfl
  | a0 :: a1 :: a2 :: a3 :: rest => by
    simp [mixColumns, mixColumns_length rest]

theorem byte_xor_lt {a b : Nat} (ha : a < 256) (hb : b < 256) : a ^^^ b < 256 := by
  calc a ^^^ b < 2 ^ 8 := Nat.xor_lt_two_pow ha hb
    _ = 256 := by norm_num

theorem mixColumns_isBytes : ∀ st : List Nat, IsBytes st → IsBytes (mixColumns st)
  | [], h => h
  | [_], h => h
  | [_, _], h => h
  | [_, _, _], h => h
  | a0 :: a1 :: a2 :: a3 :: rest, h => by
    have h0 : a0 < 256 := h _ (by simp)
    have h1 : a1 < 256 := h _ (by simp)
    have h2 : a2 < 256 := h _ (by simp)
    have h3 : a3 < 256 := h _ (by simp)
    have ih := mixColumns_isBytes rest (fun y hy => h y (by simp [hy]))
    intro x hx
    simp only [mixColumns, List.mem_cons] at hx
    rcases hx with rfl | rfl | rfl | rfl | hx
    · exact byte_xor_lt (byte_xor_lt (byte_xor_lt (xtime_lt a0 h0)
        (byte_xor_lt (xtime_lt a1 h1) h1)) h2) h3
    · exact byte_xor_lt (byte_xor_lt (byte_xor_lt h0 (xtime_lt a1 h1))
        (byte_xor_lt (xtime_lt a2 h2) h2)) h3
    · exact byte_xor_lt (byte_xor_lt (byte_xor_lt h0 h1) (xtime_lt a2 h2))
        (byte_xor_lt (xtime_lt a3 h3) h3)
    · exact byte_xor_lt (byte_xor_lt (byte_xor_lt (byte_xor_lt (xtime_lt a0 h0) h0) h1) h2)
        (xtime_lt a3 h3)
    · exact ih x hx

theorem addRoundKey_length (rk st : List Nat) :
    (addRoundKey rk st).length = min st.length rk.length := xorBytes_length st rk

theorem addRoundKey_isBytes (rk st : List Nat) (hrk : IsBytes rk) (hst : IsBytes st) :
    IsBytes (addRoundKey rk st) := xorBytes_isBytes st rk hst hrk

theorem chunk16_mem : ∀ (l c : List Nat), c ∈ chunk16 l → c.length = 16 ∧
    (IsBytes l → IsBytes c)
  | b0 :: b1 :: b2 :: b3 :: b4 :: b5 :: b6 :: b7 :: b8 :: b9 :: b10 :: b11 :: b12 :: b13 ::
      b14 :: b15 :: rest, c, hc => by
    simp only [chunk16, List.mem_cons] at hc
    rcases hc with rfl | hc
    · refine ⟨by simp, fun h => ?_⟩
      intro x hx
      apply h
      simp only [List.mem_cons, List.not_mem_nil, or_false] at hx ⊢
      tauto
    · obtain ⟨hl, hb⟩ := chunk16_mem rest c hc
      refine ⟨hl, fun h => hb fun y hy => h y ?_⟩
      simp [hy]
  | [], c, hc => by simp [chunk16] at hc
  | [b0], c, hc => by simp [chunk16] at hc
  | [b0, b1], c, hc => by simp [chunk16] at hc
  | [b0, b1, b2], c, hc => by simp [chunk16] at hc
  | [b0, b1, b2, b3], c, hc => by simp [chunk16] at hc
  | [b0, b1, b2, b3, b4], c, hc => by simp [chunk16] at hc
  | [b0, b1, b2, b3, b4, b5], c, hc => by simp [chunk16] at hc
  | [b0, b1, b2, b3, b4, b5, b6], c, hc => by simp [chunk16] at hc
  | [b0, b1, b2, b3, b4, b5, b6, b7], c, hc => by simp [chunk16] at hc
  | [b0, b1, b2, b3, b4, b5, b6, b7, b8], c, hc => by simp [chunk16] at hc
  | [b0, b1, b2, b3, b4, b5, b6, b7, b8, b9], c, hc => by simp [chunk16] at hc
  | [b0, b1, b2, b3, b4, b5, b6, b7, b8, b9, b10], c, hc => by simp [chunk16] at hc
  | [b0, b1, b2, b3, b4, b5, b6, b7, b8, b9, b10, b11], c, hc => by simp [chunk16] at hc
  | [b0, b1, b2, b3, b4, b5, b6, b7, b8, b9, b10, b11, b12], c, hc => by
    simp [chunk16] at hc
  | [b0, b1, b2, b3, b4, b5, b6, b7, b8, b9, b10, b11, b12, b13], c, hc => by
    simp [chunk16] at hc
  | [b0, b1, b2, b3, b4, b5, b6, b7, b8, b9, b10, b11, b12, b13, b14], c, hc => by
    simp [chunk16] at hc

theorem aesMiddleRounds_props : ∀ (rks : List (List Nat)) (st : List Nat),
    (∀ rk ∈ rks, rk.length = 16 ∧ IsBytes rk) → st.length = 16 → IsBytes st →
    (aesMiddleRounds rks st).length = 16 ∧ IsBytes (aesMiddleRounds rks st)
  | [], _, _, hl, hb => ⟨hl, hb⟩
  | [rk], st, hrk, hl, hb => by
    obtain ⟨hrl, hrb⟩ := hrk rk (by simp)
    rw [show aesMiddleRounds [rk] st = addRoundKey rk (shiftRows (subBytes st)) from rfl]
    constructor
    · rw [addRoundKey_length, shiftRows_length, subBytes_length, hl, hrl]
      omega
    · exact addRoundKey_isBytes _ _ hrb (shiftRows_isBytes _ (subBytes_isBytes _))
  | rk :: rk2 :: rest, st, hrk, hl, hb => by
    rw [show aesMiddleRounds (rk :: rk2 :: rest) st = aesMiddleRounds (rk2 :: rest)
      (addRoundKey rk (mixColumns (shiftRows (subBytes st)))) from rfl]
    obtain ⟨hrl, hrb⟩ := hrk rk (by simp)
    exact aesMiddleRounds_props (rk2 :: rest) _ (fun r hr => hrk r (by simp at hr ⊢; tauto))
      (by rw [addRoundKey_length, mixColumns_length, shiftRows_length, subBytes_length, hl,
        hrl]; omega)
      (addRoundKey_isBytes _ _ hrb
        (mixColumns_isBytes _ (shiftRows_isBytes _ (subBytes_isBytes _))))

theorem aesEncryptBlock_props (rks : List (List Nat)) (block : List Nat)
    (hrks : ∀ rk ∈ rks, rk.length = 16 ∧ IsBytes rk) (hl : block.length = 16)
    (hb : IsBytes block) :
    (aesEncryptBlock rks block).length = 16 ∧ IsBytes (aesEncryptBlock rks block) := by
  cases rks with
  | nil => exact ⟨hl, hb⟩
  | cons rk0 rest =>
    obtain ⟨hrl, hrb⟩ := hrks rk0 (by simp)
    exact aesMiddleRounds_props rest _ (fun r hr => hrks r (by simp [hr]))
      (by rw [addRoundKey_length, hl, hrl]; omega) (addRoundKey_isBytes _ _ hrb hb)

theorem aesRoundKeys_props (key : List Nat) :
    ∀ rk ∈ aesRoundKeys key, rk.length = 16 ∧ IsBytes rk := by
  intro rk hrk
  obtain ⟨hl, hb⟩ := chunk16_mem _ rk hrk
  refine ⟨hl, hb ?_⟩
  intro b hbm
  obtain ⟨w, _, hw⟩ := List.mem_flatMap.mp hbm
  exact natToBytesBE_isBytes 4 w b hw

theorem incCounter32_length (block : List Nat) (h : block.length = 16) :
    (incCounter32 block).length = 16 := by
  simp [incCounter32, natToBytesBE_length, h]

theorem incCounter32_isBytes (block : List Nat) (h : IsBytes block) :
    IsBytes (incCounter32 block) := by
  intro b hb
  simp only [incCounter32, List.mem_append] at hb
  rcases hb with hb | hb
  · exact h b (List.mem_of_mem_take hb)
  · exact natToBytesBE_isBytes 4 _ b hb

theorem gcmKeystream_props (rks : List (List Nat))
    (hrks : ∀ rk ∈ rks, rk.length = 16 ∧ IsBytes rk) :
    ∀ (f : Nat) (counter : List Nat), counter.length = 16 → IsBytes counter →
    (gcmKeystream rks f counter).length = 16 * f ∧ IsBytes (gcmKeystream rks f counter)
  | 0, _, _, _ => ⟨by simp [gcmKeystream], by intro b hb; simp [gcmKeystream] at hb⟩
  | f + 1, counter, hl, hb => by
    obtain ⟨hel, heb⟩ := aesEncryptBlock_props rks counter hrks hl hb
    obtain ⟨hsl, hsb⟩ := gcmKeystream_props rks hrks f (incCounter32 counter)
      (incCounter32_length counter hl) (incCounter32_isBytes counter hb)
    constructor
    · show (aesEncryptBlock rks counter ++ gcmKeystream rks f (incCounter32 counter)).length
        = 16 * (f + 1)
      rw [List.length_append, hel, hsl]
      ring
    · intro b hbm
      rcases List.mem_append.mp hbm with h | h
      · exact heb b h
      · exact hsb b h

theorem gcmJ0_length (h : Nat) (iv : List Nat) : (gcmJ0 h iv).length = 16 := by
  unfold gcmJ0
  split
  · simp_all
  · rw [natToBytesBE_length]

theorem gcmJ0_isBytes (h : Nat) (iv : List Nat) (hiv : IsBytes iv) : IsBytes (gcmJ0 h iv) := by
  unfold gcmJ0
  split
  · intro b hb
    rcases List.mem_append.mp hb with hb | hb
    · exact hiv b hb
    · simp only [List.mem_cons, List.not_mem_nil, or_false] at hb
      rcases hb with rfl | rfl | rfl | rfl <;> omega
  · exact natToBytesBE_isBytes 16 _

/-- AES-256-GCM decryption inverts encryption: the recomputed tag matches and
the keystream cancels. -/
theorem gcmDecrypt_gcmEncrypt (key iv aad pt : List Nat) (hiv : IsBytes iv) :
    gcmDecrypt key iv aad (gcmEncrypt key iv aad pt).2 (gcmEncrypt key iv aad pt).1 =
      some pt := by
  have hrks := aesRoundKeys_props key
  unfold gcmEncrypt gcmDecrypt
  simp only []
  set rks := aesRoundKeys key
  set h := bytesToNatBE (aesEncryptBlock rks (List.replicate 16 0))
  set j0 := gcmJ0 h iv with hj0
  set stream := gcmKeystream rks ((pt.length + 15) / 16) (incCounter32 j0) with hstream
  set ct := xorBytes pt stream with hct
  have hstl : stream.length = 16 * ((pt.length + 15) / 16) :=
    (gcmKeystream_props rks hrks _ (incCounter32 j0)
      (incCounter32_length j0 (gcmJ0_length h iv))
      (incCounter32_isBytes j0 (gcmJ0_isBytes h iv hiv))).1
  have hge : pt.length ≤ stream.length := by
    rw [hstl]
    omega
  have hctl : ct.length = pt.length := by
    rw [hct, xorBytes_length]
    omega
  rw [hctl, if_true]
  rw [xorBytes_cancel pt stream hge]

theorem gcmEncrypt_isBytes (key iv aad pt : List Nat) (hiv : IsBytes iv) (hpt : IsBytes pt) :
    IsBytes (gcmEncrypt key iv aad pt).1 ∧ IsBytes (gcmEncrypt key iv aad pt).2 := by
  have hrks := aesRoundKeys_props key
  unfold gcmEncrypt
  simp only []
  have hj0l := gcmJ0_length (bytesToNatBE (aesEncryptBlock (aesRoundKeys key)
    (List.replicate 16 0))) iv
  have hj0b := gcmJ0_isBytes (bytesToNatBE (aesEncryptBlock (aesRoundKeys key)
    (List.replicate 16 0))) iv hiv
  have hks := gcmKeystream_props (aesRoundKeys key) hrks ((pt.length + 15) / 16)
    (incCounter32 (gcmJ0 _ iv)) (incCounter32_length _ hj0l) (incCounter32_isBytes _ hj0b)
  constructor
  · exact xorBytes_isBytes _ _ hpt hks.2
  · exact xorBytes_isBytes _ _ (aesEncryptBlock_props _ _ hrks hj0l hj0b).2
      (natToBytesBE_isBytes 16 _)

theorem exceptOkBind {ε α β : Type} (a : α) (f : α → Except ε β) :
    Except.ok a >>= f = f a := rfl

theorem exceptErrorBind {ε α β : Type} (e : ε) (f : α → Except ε β) :
    (Except.error e : Except ε α) >>= f = Except.error e := rfl

/-! ## Claim theorems -/

/-- C3.  For all string triples (content, privateKeyMaterial, fingerprint) —
and every sampled timestamp, key and IV — decrypting the envelope produced by
sealing succeeds without error and returns the sealed record, whose `content`
field equals the original content. -/
theorem decryptPromise_encryptPromise_roundtrip
    (content privateKey fingerprintData : String) (now key iv : Nat) :
    PromiseCrypto.decryptPromise
        (PromiseCrypto.encryptPromise content privateKey fingerprintData now key iv) =
      Except.ok (PromiseCrypto.combinedData content privateKey fingerprintData now) ∧
    (PromiseCrypto.combinedData content privateKey fingerprintData now).lookup "content" =
      some (Json.str content) := by
  set keyB := natToBytesBE 32 key with hkeyB
  set ivB := natToBytesBE 16 iv with hivB
  set pt := utf8Encode (Json.stringify
    (PromiseCrypto.combinedData content privateKey fingerprintData now)) with hpt
  set ct := (gcmEncrypt keyB ivB PromiseCrypto.promiseAAD pt).1 with hct
  set tag := (gcmEncrypt keyB ivB PromiseCrypto.promiseAAD pt).2 with htag
  have hivBb : IsBytes ivB := natToBytesBE_isBytes 16 iv
  have hptb : IsBytes pt := utf8Encode_isBytes _
  obtain ⟨hctb, htagb⟩ := gcmEncrypt_isBytes keyB ivB PromiseCrypto.promiseAAD pt hivBb hptb
  have hcore : PromiseCrypto.decryptPromiseCore
      (PromiseCrypto.encryptPromise content privateKey fingerprintData now key iv) =
      Except.ok (PromiseCrypto.combinedData content privateKey fingerprintData now) := by
    rw [show PromiseCrypto.encryptPromise content privateKey fingerprintData now key iv =
      base64Encode (utf8Encode (Json.stringify (Json.obj [("key", .str (hexEncode keyB)),
        ("iv", .str (hexEncode ivB)), ("authTag", .str (hexEncode tag)),
        ("encrypted", .str (hexEncode ct))]))) from rfl]
    have h1 : Json.parse (utf8Decode (base64Decode (base64Encode (utf8Encode
        (Json.stringify (Json.obj [("key", .str (hexEncode keyB)),
          ("iv", .str (hexEncode ivB)), ("authTag", .str (hexEncode tag)),
          ("encrypted", .str (hexEncode ct))])))))) =
        some (Json.obj [("key", .str (hexEncode keyB)), ("iv", .str (hexEncode ivB)),
          ("authTag", .str (hexEncode tag)), ("encrypted", .str (hexEncode ct))]) := by
      rw [base64Decode_base64Encode _ (utf8Encode_isBytes _), utf8Decode_utf8Encode,
        Json.parse_stringify _ (by rfl)]
    unfold PromiseCrypto.decryptPromiseCore
    rw [h1]
    simp +decide only [propAccess, lookupField, PromiseCrypto.bufferFromHex, exceptOkBind,
      exceptErrorBind, if_true, if_false,
      hexDecode_hexEncode keyB (natToBytesBE_isBytes 32 key),
      hexDecode_hexEncode ivB hivBb,
      hexDecode_hexEncode tag htagb,
      hexDecode_hexEncode ct hctb]
    rw [if_neg (show ¬(keyB.length ≠ 32) by rw [hkeyB, natToBytesBE_length]; omega),
      if_neg (show ¬(ivB.length = 0) by rw [hivB, natToBytesBE_length]; omega)]
    rw [gcmDecrypt_gcmEncrypt keyB ivB PromiseCrypto.promiseAAD pt hivBb, hpt]
    simp only [utf8Decode_utf8Encode,
      Json.parse_stringify _ (show Json.wf (PromiseCrypto.combinedData content privateKey
        fingerprintData now) = true from rfl)]
  constructor
  · unfold PromiseCrypto.decryptPromise
    rw [hcore]
  · rfl

theorem sha256_isBytes (msg : List Nat) : IsBytes (sha256 msg) := by
  intro b hb
  obtain ⟨w, _, hw⟩ := List.mem_flatMap.mp hb
  exact natToBytesBE_isBytes 4 w b hw

theorem utf8Encode_inj {s t : String} (h : utf8Encode s = utf8Encode t) : s = t := by
  rw [← utf8Decode_utf8Encode s, ← utf8Decode_utf8Encode t, h]

theorem base64Encode_inj {a b : List Nat} (ha : IsBytes a) (hb : IsBytes b)
    (h : base64Encode a = base64Encode b) : a = b := by
  rw [← base64Decode_base64Encode a ha, ← base64Decode_base64Encode b hb, h]

theorem base64urlEncode_inj {a b : List Nat} (ha : IsBytes a) (hb : IsBytes b)
    (h : base64urlEncode a = base64urlEncode b) : a = b := by
  rw [← base64Decode_base64urlEncode a ha, ← base64Decode_base64urlEncode b hb, h]

theorem hexEncode_inj {a b : List Nat} (ha : IsBytes a) (hb : IsBytes b)
    (h : hexEncode a = hexEncode b) : a = b := by
  rw [← hexDecode_hexEncode a ha, ← hexDecode_hexEncode b hb, h]

/-- C10.  Certificate validation does not depend on the caller-supplied
public key: the body of `validateCertificate` never reads its `publicKey`
parameter, binding only the embedded data to the authority HMAC. -/
theorem validateCertificate_ignores_publicKey (certificate k1 k2 : String) :
    PromiseCrypto.validateCertificate certificate k1 =
      PromiseCrypto.validateCertificate certificate k2 := rfl

/-- C7.  The challenge-equality check and the raw cryptographic signature
check are independent: `verifyWebAuthnSignature` returns the same result for
every value of its `expectedChallenge` argument (the parameter is never
read), while in any non-exceptional verification a stored challenge that
differs from the recomputation makes `isChallengeValid` false. -/
theorem verifyWebAuthnSignature_challenge_independent :
    (∀ (rsaVerify : List Nat → String → List Nat → Bool)
       (sig : WebAuthnPromiseService.SignatureData) (pem ch1 ch2 : String),
       WebAuthnPromiseService.verifyWebAuthnSignature rsaVerify sig pem ch1 =
         WebAuthnPromiseService.verifyWebAuthnSignature rsaVerify sig pem ch2) ∧
    (∀ (rsaVerify : List Nat → String → List Nat → Bool)
       (a : WebAuthnPromiseService.SignedPromise)
       (r : WebAuthnPromiseService.VerificationResult),
       WebAuthnPromiseService.verifySignedPromiseCore rsaVerify a = Except.ok r →
       a.challenge ≠ WebAuthnPromiseService.expectedChallengeOf a →
       r.isChallengeValid = false) := by
  constructor
  · intro _ _ _ _ _
    rfl
  · intro rsaVerify a r hr hne
    unfold WebAuthnPromiseService.verifySignedPromiseCore at hr
    cases hc : WebAuthnPromiseService.clientDataCheck a with
    | ok b =>
      rw [hc, exceptOkBind] at hr
      have := (Except.ok.injEq _ _ ▸ hr : _ = r)
      rw [← this]
      simp only [beq_eq_false_iff_ne, ne_eq]
      exact hne
    | error e =>
      rw [hc, exceptErrorBind] at hr
      exact absurd hr (by simp)

/-- C5.  `generateSigningChallenge` is exactly base64url of the SHA-256 hash
of the canonical JSON serialization of the snapshot; it is deterministic in
the snapshot, and two snapshots with different hashes (no SHA-256 collision)
give different challenges. -/
theorem generateSigningChallenge_spec :
    (∀ p : WebAuthnPromiseService.PromiseSnapshot,
       WebAuthnPromiseService.generateSigningChallenge p =
         base64urlEncode (sha256 (utf8Encode
           (Json.stringify (WebAuthnPromiseService.snapshotJson p))))) ∧
    (∀ p q : WebAuthnPromiseService.PromiseSnapshot, p = q →
       WebAuthnPromiseService.generateSigningChallenge p =
         WebAuthnPromiseService.generateSigningChallenge q) ∧
    (∀ p q : WebAuthnPromiseService.PromiseSnapshot,
       sha256 (utf8Encode (Json.stringify (WebAuthnPromiseService.snapshotJson p))) ≠
         sha256 (utf8Encode (Json.stringify (WebAuthnPromiseService.snapshotJson q))) →
       WebAuthnPromiseService.generateSigningChallenge p ≠
         WebAuthnPromiseService.generateSigningChallenge q) := by
  refine ⟨fun _ => rfl, fun p q h => by rw [h], ?_⟩
  intro p q hne he
  exact hne (base64urlEncode_inj (sha256_isBytes _) (sha256_isBytes _) he)

/-- Witness for the hypothesis-bearing part of C5, at the spec's own tamper
pair: the Friday and Monday snapshots hash differently, so their challenges
differ. -/
theorem generateSigningChallenge_spec_witness :
    WebAuthnPromiseService.generateSigningChallenge
        ⟨"p1", "Deliver report", "I will deliver by Friday", "2025-01-10", "u1"⟩ ≠
      WebAuthnPromiseService.generateSigningChallenge
        ⟨"p1", "Deliver report", "I will deliver by Monday", "2025-01-10", "u1"⟩ :=
  generateSigningChallenge_spec.2.2
    ⟨"p1", "Deliver report", "I will deliver by Friday", "2025-01-10", "u1"⟩
    ⟨"p1", "Deliver report", "I will deliver by Monday", "2025-01-10", "u1"⟩
    (by decide)

namespace WebAuthnPromiseService

/-- The `ok` result record of `verifySignedPromiseCore` as a function of the
client-data verdict. -/
def verifyResultOf (rsaVerify : List Nat → String → List Nat → Bool)
    (a : SignedPromise) (b : Bool) : VerificationResult :=
  let icv := a.challenge == expectedChallengeOf a
  let isv := verifyWebAuthnSignature rsaVerify a.signature a.publicKey a.challenge
  let iv := icv && b && isv && true
  { isValid := iv
    isSignatureValid := isv
    isChallengeValid := icv
    isDataIntact := true
    creator := a.creator.username
    errorDetails := if iv then none else some ("Challenge: " ++ toString icv
      ++ ", ClientData: " ++ toString b ++ ", Signature: " ++ toString isv) }

theorem verifySignedPromiseCore_ok (rsaVerify : List Nat → String → List Nat → Bool)
    (a : SignedPromise) (b : Bool) (h : clientDataCheck a = Except.ok b) :
    verifySignedPromiseCore rsaVerify a = Except.ok (verifyResultOf rsaVerify a b) := by
  unfold verifySignedPromiseCore
  rw [h, exceptOkBind]
  rfl

theorem verifySignedPromiseCore_error (rsaVerify : List Nat → String → List Nat → Bool)
    (a : SignedPromise) (e : String) (h : clientDataCheck a = Except.error e) :
    verifySignedPromiseCore rsaVerify a = Except.error e := by
  unfold verifySignedPromiseCore
  rw [h, exceptErrorBind]

/-- The only throw site of `verifySignedPromiseCore` is the client-data
parsing and property access. -/
theorem verifySignedPromiseCore_error_src (rsaVerify : List Nat → String → List Nat → Bool)
    (a : SignedPromise) (e : String) (h : verifySignedPromiseCore rsaVerify a = Except.error e) :
    clientDataCheck a = Except.error e := by
  cases hc : clientDataCheck a with
  | ok b => rw [verifySignedPromiseCore_ok rsaVerify a b hc] at h; exact absurd h (by simp)
  | error e' =>
    rw [verifySignedPromiseCore_error rsaVerify a e' hc] at h
    injection h with h
    rw [← h]

/-- Every message thrown inside `verifySignedPromise`'s try block is one of
the four JavaScript error strings of the client-data check. -/
theorem clientDataCheck_error_mem (a : SignedPromise) (e : String)
    (h : clientDataCheck a = Except.error e) :
    e = "Unexpected token in JSON" ∨
      e = "Cannot read properties of null (reading 'type')" ∨
      e = "includes is not a function" := by
  unfold clientDataCheck at h
  cases hp : Json.parse (utf8Decode (base64Decode a.signature.clientDataJSON)) with
  | none =>
    simp only [hp, exceptErrorBind, exceptOkBind] at h
    injection h with h
    exact Or.inl h.symm
  | some cd =>
    simp only [hp, exceptOkBind, exceptErrorBind] at h
    cases cd with
    | null =>
      simp only [propAccess, exceptErrorBind] at h
      injection h with h
      exact Or.inr (Or.inl h.symm)
    | obj ms =>
      simp only [propAccess, exceptOkBind] at h
      split at h
      · split at h
        · exact absurd h (by simp)
        · exact absurd h (by simp)
        · injection h with h
          exact Or.inr (Or.inr h.symm)
      · exact absurd h (by simp)
    | str s => simp [propAccess, jsEqStr, exceptOkBind] at h
    | num i => simp [propAccess, jsEqStr, exceptOkBind] at h
    | bool b => simp [propAccess, jsEqStr, exceptOkBind] at h
    | arr es => simp [propAccess, jsEqStr, exceptOkBind] at h

/-- A fixed platform verifier for concrete checks: rejects everything. -/
def rsaFalse : List Nat → String → List Nat → Bool := fun _ _ _ => false

/-- A structurally broken artifact: its `clientDataJSON` is empty, so the
client-data JSON parse throws. -/
def sampleBadArtifact : SignedPromise :=
  { id := "p1", title := "t", content := "c", deliveryDate := "d", createdAt := "e"
    creator := ⟨"u1", "alice"⟩, encryptedContent := ""
    signature := ⟨"", "", "", "", ""⟩, publicKey := "", challenge := "x"
    rpId := "localhost" }

/-- A structurally valid artifact: its `clientDataJSON` is base64 of a
well-formed WebAuthn client-data object. -/
def sampleGoodArtifact : SignedPromise :=
  { id := "p1", title := "t", content := "c", deliveryDate := "d", createdAt := "e"
    creator := ⟨"u1", "alice"⟩, encryptedContent := ""
    signature := ⟨"cred", base64Encode (utf8Encode
      "\x7b\"type\":\"webauthn.get\",\"challenge\":\"x\",\"origin\":\"https://localhost\"\x7d"),
      "", "", ""⟩
    publicKey := "", challenge := "x", rpId := "localhost" }

end WebAuthnPromiseService

/-- C4.  Verification is fail-closed: `verifySignedPromise` is a total
function (the embedding of the try/catch), and whenever the body throws —
malformed base64, invalid JSON, a missing or null field — the caller gets the
structured all-false result carrying the thrown message, which is never
empty, as `errorDetails`. -/
theorem verifySignedPromise_fail_closed
    (rsaVerify : List Nat → String → List Nat → Bool)
    (a : WebAuthnPromiseService.SignedPromise) (e : String)
    (h : WebAuthnPromiseService.verifySignedPromiseCore rsaVerify a = Except.error e) :
    WebAuthnPromiseService.verifySignedPromise rsaVerify a =
      { isValid := false, isSignatureValid := false, isChallengeValid := false
        isDataIntact := false
        creator := if a.creator.username = "" then "Unknown" else a.creator.username
        errorDetails := some e } ∧ e ≠ "" := by
  constructor
  · unfold WebAuthnPromiseService.verifySignedPromise
    rw [h]
  · have hc := WebAuthnPromiseService.verifySignedPromiseCore_error_src rsaVerify a e h
    rcases WebAuthnPromiseService.clientDataCheck_error_mem a e hc with h1 | h1 | h1 <;>
      subst h1 <;> decide

/-- Witness for C4 at a concrete broken artifact. -/
theorem verifySignedPromise_fail_closed_witness :
    WebAuthnPromiseService.verifySignedPromiseCore WebAuthnPromiseService.rsaFalse
        WebAuthnPromiseService.sampleBadArtifact = Except.error "Unexpected token in JSON" ∧
    (WebAuthnPromiseService.verifySignedPromise WebAuthnPromiseService.rsaFalse
        WebAuthnPromiseService.sampleBadArtifact =
      { isValid := false, isSignatureValid := false, isChallengeValid := false
        isDataIntact := false
        creator := if WebAuthnPromiseService.sampleBadArtifact.creator.username = ""
          then "Unknown" else WebAuthnPromiseService.sampleBadArtifact.creator.username
        errorDetails := some "Unexpected token in JSON" } ∧
      "Unexpected token in JSON" ≠ "") :=
  ⟨rfl, verifySignedPromise_fail_closed WebAuthnPromiseService.rsaFalse
    WebAuthnPromiseService.sampleBadArtifact "Unexpected token in JSON" rfl⟩

/-- C6.  In every non-exceptional verification the returned `isValid` equals
the conjunction of the four sub-checks, and the client-data verdict, when the
decoded `clientDataJSON` is an object with string `type`, `challenge` and
`origin` fields, is exactly: `type` is `webauthn.get`, the embedded challenge
equals the artifact's, and `origin` contains the artifact's `rpId`. -/
theorem isValid_conjunction_spec :
    (∀ (rsaVerify : List Nat → String → List Nat → Bool)
       (a : WebAuthnPromiseService.SignedPromise) (b : Bool)
       (r : WebAuthnPromiseService.VerificationResult),
       WebAuthnPromiseService.clientDataCheck a = Except.ok b →
       WebAuthnPromiseService.verifySignedPromiseCore rsaVerify a = Except.ok r →
       r.isValid = (r.isChallengeValid && b && r.isSignatureValid && r.isDataIntact)) ∧
    (∀ (a : WebAuthnPromiseService.SignedPromise) (ms : List (String × Json)) (t ch o : String),
       Json.parse (utf8Decode (base64Decode a.signature.clientDataJSON)) = some (.obj ms) →
       lookupField ms "type" = some (.str t) →
       lookupField ms "challenge" = some (.str ch) →
       lookupField ms "origin" = some (.str o) →
       WebAuthnPromiseService.clientDataCheck a =
         Except.ok ((t == "webauthn.get") && ((ch == a.challenge) && strIncludes o a.rpId))) := by
  constructor
  · intro rsaVerify a b r hb hr
    rw [WebAuthnPromiseService.verifySignedPromiseCore_ok rsaVerify a b hb] at hr
    injection hr with hr
    rw [← hr]
    rfl
  · intro a ms t ch o hp ht hch ho
    unfold WebAuthnPromiseService.clientDataCheck
    simp only [hp, exceptOkBind, propAccess, ht, hch, ho, jsEqStr]
    rcases Bool.eq_false_or_eq_true (t == "webauthn.get") with hA | hA <;>
      rcases Bool.eq_false_or_eq_true (ch == a.challenge) with hB | hB <;>
        simp [hA, hB]

/-- Witness for C6 at a concrete well-formed artifact: the client-data
verdict has the stated shape, and `isValid` is the four-way conjunction. -/
theorem isValid_conjunction_spec_witness :
    WebAuthnPromiseService.clientDataCheck WebAuthnPromiseService.sampleGoodArtifact =
      Except.ok ((("webauthn.get" : String) == "webauthn.get") &&
        ((("x" : String) == WebAuthnPromiseService.sampleGoodArtifact.challenge) &&
          strIncludes "https://localhost" WebAuthnPromiseService.sampleGoodArtifact.rpId)) ∧
    (WebAuthnPromiseService.verifySignedPromise WebAuthnPromiseService.rsaFalse
        WebAuthnPromiseService.sampleGoodArtifact).isValid =
      ((WebAuthnPromiseService.verifySignedPromise WebAuthnPromiseService.rsaFalse
          WebAuthnPromiseService.sampleGoodArtifact).isChallengeValid &&
        ((("webauthn.get" : String) == "webauthn.get") &&
          ((("x" : String) == WebAuthnPromiseService.sampleGoodArtifact.challenge) &&
            strIncludes "https://localhost" WebAuthnPromiseService.sampleGoodArtifact.rpId)) &&
        (WebAuthnPromiseService.verifySignedPromise WebAuthnPromiseService.rsaFalse
          WebAuthnPromiseService.sampleGoodArtifact).isSignatureValid &&
        (WebAuthnPromiseService.verifySignedPromise WebAuthnPromiseService.rsaFalse
          WebAuthnPromiseService.sampleGoodArtifact).isDataIntact) := by
  have h2 := isValid_conjunction_spec.2 WebAuthnPromiseService.sampleGoodArtifact
    [("type", Json.str "webauthn.get"), ("challenge", Json.str "x"),
     ("origin", Json.str "https://localhost")] "webauthn.get" "x" "https://localhost"
    rfl rfl rfl rfl
  exact ⟨h2, isValid_conjunction_spec.1 WebAuthnPromiseService.rsaFalse
    WebAuthnPromiseService.sampleGoodArtifact _
    (WebAuthnPromiseService.verifySignedPromise WebAuthnPromiseService.rsaFalse
      WebAuthnPromiseService.sampleGoodArtifact) h2 rfl⟩

namespace WebAuthnPromiseService

/-- An artifact whose stored challenge *does* equal the recomputation over
its own fields, but whose `clientDataJSON` is empty, so verification lands in
the catch arm. -/
def challengeMatchArtifact : SignedPromise :=
  { id := "p1", title := "Deliver report", content := "I will deliver by Friday"
    deliveryDate := "2025-01-10", createdAt := "2025-01-01"
    creator := ⟨"u1", "alice"⟩, encryptedContent := ""
    signature := ⟨"", "", "", "", ""⟩, publicKey := ""
    challenge := generateSigningChallenge
      ⟨"p1", "Deliver report", "I will deliver by Friday", "2025-01-10", "u1"⟩
    rpId := "localhost" }

/-- The spec's tamper scenario: the artifact built over the Friday snapshot,
with `content` mutated to Monday after the build. -/
def tamperedArtifact (sig : SignatureData) (pk : String) (now iv : Nat)
    (env : Option String) : SignedPromise :=
  { createSignedPromiseFile
      ⟨"p1", "Deliver report", "I will deliver by Friday", "2025-01-10", "2025-01-01",
        ⟨"u1", "alice"⟩, "u1"⟩
      sig pk
      (generateSigningChallenge
        ⟨"p1", "Deliver report", "I will deliver by Friday", "2025-01-10", "u1"⟩)
      now iv env
    with content := "I will deliver by Monday" }

end WebAuthnPromiseService

/-- C1 (counterexample).  `isChallengeValid` is *not* true exactly when the
stored challenge equals the recomputation: an artifact whose challenge
matches its own recomputed challenge but whose `clientDataJSON` fails to
parse is reported with `isChallengeValid = false` by the catch arm. -/
theorem verifySignedPromise_challenge_binding_counterexample :
    WebAuthnPromiseService.challengeMatchArtifact.challenge =
      WebAuthnPromiseService.expectedChallengeOf
        WebAuthnPromiseService.challengeMatchArtifact ∧
    (WebAuthnPromiseService.verifySignedPromise WebAuthnPromiseService.rsaFalse
      WebAuthnPromiseService.challengeMatchArtifact).isChallengeValid = false :=
  ⟨rfl, rfl⟩

/-- C1 (amended).  In every *non-exceptional* verification,
`isChallengeValid` is true exactly when the stored challenge equals
`generateSigningChallenge` recomputed over the artifact's own
`{id, title, content, deliveryDate, creator.id}` fields; when the body
throws, `isChallengeValid` is false regardless of that comparison; and the
spec's tamper test holds: mutating `content` to Monday after building over
the Friday snapshot yields `isChallengeValid = false`. -/
theorem verifySignedPromise_challenge_binding :
    (∀ (rsaVerify : List Nat → String → List Nat → Bool)
       (a : WebAuthnPromiseService.SignedPromise)
       (r : WebAuthnPromiseService.VerificationResult),
       WebAuthnPromiseService.verifySignedPromiseCore rsaVerify a = Except.ok r →
       r.isChallengeValid =
         (a.challenge == WebAuthnPromiseService.expectedChallengeOf a)) ∧
    (∀ (rsaVerify : List Nat → String → List Nat → Bool)
       (a : WebAuthnPromiseService.SignedPromise) (e : String),
       WebAuthnPromiseService.verifySignedPromiseCore rsaVerify a = Except.error e →
       (WebAuthnPromiseService.verifySignedPromise rsaVerify a).isChallengeValid = false) ∧
    (∀ (rsaVerify : List Nat → String → List Nat → Bool)
       (sig : WebAuthnPromiseService.SignatureData) (pk : String) (now iv : Nat)
       (env : Option String),
       (WebAuthnPromiseService.verifySignedPromise rsaVerify
         (WebAuthnPromiseService.tamperedArtifact sig pk now iv env)).isChallengeValid =
           false) := by
  have hok : ∀ (rsaVerify : List Nat → String → List Nat → Bool)
      (a : WebAuthnPromiseService.SignedPromise)
      (r : WebAuthnPromiseService.VerificationResult),
      WebAuthnPromiseService.verifySignedPromiseCore rsaVerify a = Except.ok r →
      r.isChallengeValid = (a.challenge == WebAuthnPromiseService.expectedChallengeOf a) := by
    intro rsaVerify a r hr
    cases hc : WebAuthnPromiseService.clientDataCheck a with
    | ok b =>
      rw [WebAuthnPromiseService.verifySignedPromiseCore_ok rsaVerify a b hc] at hr
      injection hr with hr
      rw [← hr]
      rfl
    | error e =>
      rw [WebAuthnPromiseService.verifySignedPromiseCore_error rsaVerify a e hc] at hr
      exact absurd hr (by simp)
  refine ⟨hok, ?_, ?_⟩
  · intro rsaVerify a e he
    unfold WebAuthnPromiseService.verifySignedPromise
    rw [he]
  · intro rsaVerify sig pk now iv env
    have hne : (WebAuthnPromiseService.generateSigningChallenge
          ⟨"p1", "Deliver report", "I will deliver by Friday", "2025-01-10", "u1"⟩ ==
        WebAuthnPromiseService.generateSigningChallenge
          ⟨"p1", "Deliver report", "I will deliver by Monday", "2025-01-10", "u1"⟩) = false := by
      decide
    cases hc : WebAuthnPromiseService.verifySignedPromiseCore rsaVerify
        (WebAuthnPromiseService.tamperedArtifact sig pk now iv env) with
    | ok r =>
      have h1 : WebAuthnPromiseService.verifySignedPromise rsaVerify
          (WebAuthnPromiseService.tamperedArtifact sig pk now iv env) = r := by
        unfold WebAuthnPromiseService.verifySignedPromise
        rw [hc]
      rw [h1, hok rsaVerify _ r hc]
      exact hne
    | error e =>
      unfold WebAuthnPromiseService.verifySignedPromise
      rw [hc]

/-- Witness for C1 at concrete artifacts: a non-exceptional verification
whose `isChallengeValid` is the stated comparison, and an exceptional one
reported false. -/
theorem verifySignedPromise_challenge_binding_witness :
    (WebAuthnPromiseService.verifySignedPromise WebAuthnPromiseService.rsaFalse
        WebAuthnPromiseService.sampleGoodArtifact).isChallengeValid =
      (WebAuthnPromiseService.sampleGoodArtifact.challenge ==
        WebAuthnPromiseService.expectedChallengeOf
          WebAuthnPromiseService.sampleGoodArtifact) ∧
    (WebAuthnPromiseService.verifySignedPromise WebAuthnPromiseService.rsaFalse
        WebAuthnPromiseService.sampleBadArtifact).isChallengeValid = false :=
  ⟨verifySignedPromise_challenge_binding.1 WebAuthnPromiseService.rsaFalse
      WebAuthnPromiseService.sampleGoodArtifact
      (WebAuthnPromiseService.verifySignedPromise WebAuthnPromiseService.rsaFalse
        WebAuthnPromiseService.sampleGoodArtifact) rfl,
   verifySignedPromise_challenge_binding.2.1 WebAuthnPromiseService.rsaFalse
      WebAuthnPromiseService.sampleBadArtifact "Unexpected token in JSON" rfl⟩

namespace PromiseCrypto

/-- A certificate file over arbitrary embedded data and signature: the
base64/JSON packaging step of `generateCertificate`, separated so that
tampered certificates can be expressed. -/
def certEncode (d : Json) (sig : String) : String :=
  base64Encode (utf8Encode (Json.stringify
    (.obj [("data", d), ("signature", .str sig)])))

theorem generateCertificate_certEncode (promiseId publicKey creatorFingerprint : String)
    (now : Nat) :
    generateCertificate promiseId publicKey creatorFingerprint now =
      certEncode (certData promiseId publicKey creatorFingerprint now)
        (hexEncode (hmacSha256 certAuthorityKey (utf8Encode
          (Json.stringify (certData promiseId publicKey creatorFingerprint now))))) := rfl

theorem certEncode_parse (d : Json) (sig : String) (hd : Json.wf d = true) :
    Json.parse (utf8Decode (base64Decode (certEncode d sig))) =
      some (Json.obj [("data", d), ("signature", .str sig)]) := by
  have hwf : Json.wf (Json.obj [("data", d), ("signature", Json.str sig)]) = true := by
    simp +decide [Json.wf, wfFields, hasKey, hd]
  unfold certEncode
  rw [base64Decode_base64Encode _ (utf8Encode_isBytes _), utf8Decode_utf8Encode,
    Json.parse_stringify _ hwf]

/-- Acceptance of an arbitrary certificate file: exactly the comparison of
the embedded signature with the authority HMAC over the canonical JSON of
the embedded data. -/
theorem validateCertificate_certEncode (d : Json) (sig kv : String)
    (hd : Json.wf d = true) :
    validateCertificate (certEncode d sig) kv =
      (sig == hexEncode (hmacSha256 certAuthorityKey
        (utf8Encode (Json.stringify d)))) := by
  unfold validateCertificate validateCertificateCore
  rw [certEncode_parse d sig hd]
  simp +decide only [propAccess, lookupField, exceptOkBind, exceptErrorBind,
    if_true, if_false, jsEqStr]

/-- The genuine authority signature of the concrete certificate used in the
tamper checks. -/
def certSig0 : String :=
  hexEncode (hmacSha256 certAuthorityKey
    (utf8Encode (Json.stringify (certData "p1" "k1" "f1" 1700000000000))))

end PromiseCrypto

/-- C2.  Issued certificates validate under any supplied key; an arbitrary
certificate file is accepted iff its embedded signature equals the authority
HMAC-SHA256 over the canonical JSON of its embedded data; and single-field
tampering — changing the embedded `publicKey`, `creatorFingerprint`, or the
last digit of `issuedAt`, keeping the genuine signature — is rejected. -/
theorem validateCertificate_generateCertificate_spec :
    (∀ (promiseId publicKey creatorFingerprint : String) (now : Nat) (kv : String),
       PromiseCrypto.validateCertificate
         (PromiseCrypto.generateCertificate promiseId publicKey creatorFingerprint now) kv =
           true) ∧
    (∀ (d : Json) (sig kv : String), Json.wf d = true →
       PromiseCrypto.validateCertificate (PromiseCrypto.certEncode d sig) kv =
         (sig == hexEncode (hmacSha256 PromiseCrypto.certAuthorityKey
           (utf8Encode (Json.stringify d))))) ∧
    (PromiseCrypto.validateCertificate (PromiseCrypto.certEncode
        (PromiseCrypto.certData "p1" "k2" "f1" 1700000000000) PromiseCrypto.certSig0) "k2" =
          false ∧
     PromiseCrypto.validateCertificate (PromiseCrypto.certEncode
        (PromiseCrypto.certData "p1" "k1" "f2" 1700000000000) PromiseCrypto.certSig0) "k1" =
          false ∧
     PromiseCrypto.validateCertificate (PromiseCrypto.certEncode
        (PromiseCrypto.certData "p1" "k1" "f1" 1700000000001) PromiseCrypto.certSig0) "k1" =
          false) := by
  refine ⟨?_, fun d sig kv hd => PromiseCrypto.validateCertificate_certEncode d sig kv hd, ?_⟩
  · intro promiseId publicKey creatorFingerprint now kv
    rw [PromiseCrypto.generateCertificate_certEncode,
      PromiseCrypto.validateCertificate_certEncode _ _ _ (by rfl)]
    simp
  · refine ⟨?_, ?_, ?_⟩ <;>
      (rw [PromiseCrypto.validateCertificate_certEncode _ _ _ (by rfl)]; decide)

/-- Witness for C2's conditional part at concrete data. -/
theorem validateCertificate_generateCertificate_spec_witness :
    Json.wf (Json.str "v") = true ∧
    PromiseCrypto.validateCertificate (PromiseCrypto.certEncode (Json.str "v") "s") "kv" =
      (("s" : String) == hexEncode (hmacSha256 PromiseCrypto.certAuthorityKey
        (utf8Encode (Json.stringify (Json.str "v"))))) :=
  ⟨rfl, validateCertificate_generateCertificate_spec.2.1 (Json.str "v") "s" "kv" rfl⟩

namespace PromiseCrypto

/-- Parsing an envelope produced by `encryptPromise`: the exact field list. -/
theorem encryptPromise_parse (content privateKey fingerprintData : String)
    (now key iv : Nat) :
    Json.parse (utf8Decode (base64Decode
        (encryptPromise content privateKey fingerprintData now key iv))) =
      some (Json.obj
        [("key", .str (hexEncode (natToBytesBE 32 key))),
         ("iv", .str (hexEncode (natToBytesBE 16 iv))),
         ("authTag", .str (hexEncode (gcmEncrypt (natToBytesBE 32 key) (natToBytesBE 16 iv)
           promiseAAD (utf8Encode (Json.stringify
             (combinedData content privateKey fingerprintData now)))).2)),
         ("encrypted", .str (hexEncode (gcmEncrypt (natToBytesBE 32 key) (natToBytesBE 16 iv)
           promiseAAD (utf8Encode (Json.stringify
             (combinedData content privateKey fingerprintData now)))).1))]) := by
  rw [show encryptPromise content privateKey fingerprintData now key iv =
    base64Encode (utf8Encode (Json.stringify (Json.obj
      [("key", .str (hexEncode (natToBytesBE 32 key))),
       ("iv", .str (hexEncode (natToBytesBE 16 iv))),
       ("authTag", .str (hexEncode (gcmEncrypt (natToBytesBE 32 key) (natToBytesBE 16 iv)
         promiseAAD (utf8Encode (Json.stringify
           (combinedData content privateKey fingerprintData now)))).2)),
       ("encrypted", .str (hexEncode (gcmEncrypt (natToBytesBE 32 key) (natToBytesBE 16 iv)
         promiseAAD (utf8Encode (Json.stringify
           (combinedData content privateKey fingerprintData now)))).1))]))) from rfl]
  rw [base64Decode_base64Encode _ (utf8Encode_isBytes _), utf8Decode_utf8Encode,
    Json.parse_stringify _ (by rfl)]

end PromiseCrypto

/-- C8 (counterexample).  A sealed envelope parses to an object with *no*
`ciphertext` field (the field is named `encrypted`), and the associated-data
tag is `promiseshare-auth`, not `promise-auth-context`. -/
theorem envelope_wire_format_counterexample :
    Option.map (fun j => j.lookup "ciphertext")
        (Json.parse (utf8Decode (base64Decode
          (PromiseCrypto.encryptPromise "c" "k" "f" 0 0 0)))) = some none ∧
    PromiseCrypto.promiseAAD ≠ utf8Encode "promise-auth-context" := by
  constructor
  · rw [PromiseCrypto.encryptPromise_parse "c" "k" "f" 0 0 0]
    rfl
  · decide

/-- C8 (amended).  Every sealed envelope is base64 of a JSON object with
exactly the hex-valued fields `key`, `iv`, `authTag`, `encrypted`; the
associated data is the fixed tag `promiseshare-auth`; the ciphertext
authenticates and decrypts under the embedded tag back to the inner
plaintext, which is the JSON object
`(content : string, privateKey : string, fingerprint : string,
timestamp : number-of-milliseconds)`. -/
theorem envelope_wire_format (content privateKey fingerprintData : String)
    (now key iv : Nat) :
    Json.parse (utf8Decode (base64Decode
        (PromiseCrypto.encryptPromise content privateKey fingerprintData now key iv))) =
      some (Json.obj
        [("key", .str (hexEncode (natToBytesBE 32 key))),
         ("iv", .str (hexEncode (natToBytesBE 16 iv))),
         ("authTag", .str (hexEncode (gcmEncrypt (natToBytesBE 32 key) (natToBytesBE 16 iv)
           PromiseCrypto.promiseAAD (utf8Encode (Json.stringify
             (PromiseCrypto.combinedData content privateKey fingerprintData now)))).2)),
         ("encrypted", .str (hexEncode (gcmEncrypt (natToBytesBE 32 key) (natToBytesBE 16 iv)
           PromiseCrypto.promiseAAD (utf8Encode (Json.stringify
             (PromiseCrypto.combinedData content privateKey fingerprintData now)))).1))]) ∧
    PromiseCrypto.promiseAAD = utf8Encode "promiseshare-auth" ∧
    gcmDecrypt (natToBytesBE 32 key) (natToBytesBE 16 iv) PromiseCrypto.promiseAAD
        (gcmEncrypt (natToBytesBE 32 key) (natToBytesBE 16 iv) PromiseCrypto.promiseAAD
          (utf8Encode (Json.stringify
            (PromiseCrypto.combinedData content privateKey fingerprintData now)))).2
        (gcmEncrypt (natToBytesBE 32 key) (natToBytesBE 16 iv) PromiseCrypto.promiseAAD
          (utf8Encode (Json.stringify
            (PromiseCrypto.combinedData content privateKey fingerprintData now)))).1 =
      some (utf8Encode (Json.stringify
        (PromiseCrypto.combinedData content privateKey fingerprintData now))) ∧
    PromiseCrypto.combinedData content privateKey fingerprintData now =
      Json.obj [("content", .str content), ("privateKey", .str privateKey),
        ("fingerprint", .str fingerprintData), ("timestamp", .num now)] :=
  ⟨PromiseCrypto.encryptPromise_parse content privateKey fingerprintData now key iv, rfl,
   gcmDecrypt_gcmEncrypt (natToBytesBE 32 key) (natToBytesBE 16 iv) PromiseCrypto.promiseAAD
     (utf8Encode (Json.stringify
       (PromiseCrypto.combinedData content privateKey fingerprintData now)))
     (natToBytesBE_isBytes 16 iv),
   rfl⟩

namespace PromiseCrypto

/-- Two certificates over the same inputs agree exactly when their sampled
timestamps agree. -/
theorem generateCertificate_inj (p k f : String) (t t' : Nat)
    (h : generateCertificate p k f t = generateCertificate p k f t') : t = t' := by
  have h1 : Json.parse (utf8Decode (base64Decode (generateCertificate p k f t))) =
      Json.parse (utf8Decode (base64Decode (generateCertificate p k f t'))) := by rw [h]
  rw [generateCertificate_certEncode p k f t, generateCertificate_certEncode p k f t',
    certEncode_parse _ _ (by rfl), certEncode_parse _ _ (by rfl)] at h1
  simp only [Option.some.injEq, Json.obj.injEq, List.cons.injEq, Prod.mk.injEq,
    Json.str.injEq, Json.num.injEq, Nat.cast_inj, certData, eq_self_iff_true,
    true_and, and_true] at h1
  exact h1.1

/-- Two envelopes over the same inputs force equal sampled key, IV and
timestamp (key and IV up to the 32- and 16-byte reduction the byte strings
carry). -/
theorem encryptPromise_inj (c pk fp : String) (now now' key key' iv iv' : Nat)
    (h : encryptPromise c pk fp now key iv = encryptPromise c pk fp now' key' iv') :
    now = now' ∧ key % 256 ^ 32 = key' % 256 ^ 32 ∧ iv % 256 ^ 16 = iv' % 256 ^ 16 := by
  have h1 : Json.parse (utf8Decode (base64Decode (encryptPromise c pk fp now key iv))) =
      Json.parse (utf8Decode (base64Decode (encryptPromise c pk fp now' key' iv'))) := by
    rw [h]
  rw [encryptPromise_parse c pk fp now key iv, encryptPromise_parse c pk fp now' key' iv']
    at h1
  simp only [Option.some.injEq, Json.obj.injEq, List.cons.injEq, Prod.mk.injEq,
    Json.str.injEq, eq_self_iff_true, true_and, and_true] at h1
  obtain ⟨hkey, hiv, htag, hct⟩ := h1
  have hkeyB : natToBytesBE 32 key = natToBytesBE 32 key' :=
    hexEncode_inj (natToBytesBE_isBytes 32 key) (natToBytesBE_isBytes 32 key') hkey
  have hivB : natToBytesBE 16 iv = natToBytesBE 16 iv' :=
    hexEncode_inj (natToBytesBE_isBytes 16 iv) (natToBytesBE_isBytes 16 iv') hiv
  refine ⟨?_, natToBytesBE_inj 32 hkeyB, natToBytesBE_inj 16 hivB⟩
  set pt := utf8Encode (Json.stringify (combinedData c pk fp now)) with hpt
  set pt2 := utf8Encode (Json.stringify (combinedData c pk fp now')) with hpt2
  obtain ⟨hctb, htagb⟩ := gcmEncrypt_isBytes (natToBytesBE 32 key) (natToBytesBE 16 iv)
    promiseAAD pt (natToBytesBE_isBytes 16 iv) (utf8Encode_isBytes _)
  obtain ⟨hctb2, htagb2⟩ := gcmEncrypt_isBytes (natToBytesBE 32 key') (natToBytesBE 16 iv')
    promiseAAD pt2 (natToBytesBE_isBytes 16 iv') (utf8Encode_isBytes _)
  rw [← hkeyB, ← hivB] at htag hct htagb2 hctb2
  have htagE := hexEncode_inj htagb htagb2 htag
  have hctE := hexEncode_inj hctb hctb2 hct
  have hdec : some pt = some pt2 := by
    rw [← gcmDecrypt_gcmEncrypt (natToBytesBE 32 key) (natToBytesBE 16 iv) promiseAAD pt
        (natToBytesBE_isBytes 16 iv), htagE, hctE,
      gcmDecrypt_gcmEncrypt (natToBytesBE 32 key) (natToBytesBE 16 iv) promiseAAD pt2
        (natToBytesBE_isBytes 16 iv)]
  have hdec2 : pt = pt2 := Option.some_inj.mp hdec
  rw [hpt, hpt2] at hdec2
  have hcd := Json.stringify_inj (combinedData c pk fp now) (combinedData c pk fp now')
    (by rfl) (by rfl) (utf8Encode_inj hdec2)
  simp only [combinedData, Json.obj.injEq, List.cons.injEq, Prod.mk.injEq, Json.str.injEq,
    Json.num.injEq, Nat.cast_inj, eq_self_iff_true, true_and, and_true] at hcd
  exact hcd

end PromiseCrypto

/-- C9 (counterexample).  Issuance and sealing are *not* deterministic in the
declared inputs alone: calls at consecutive clock samples return different
certificate and envelope strings for identical inputs. -/
theorem issuance_sealing_nondeterminism :
    PromiseCrypto.generateCertificate "p" "k" "f" 0 ≠
      PromiseCrypto.generateCertificate "p" "k" "f" 1 ∧
    PromiseCrypto.encryptPromise "c" "k" "f" 0 0 0 ≠
      PromiseCrypto.encryptPromise "c" "k" "f" 1 0 0 :=
  ⟨fun h => absurd (PromiseCrypto.generateCertificate_inj "p" "k" "f" 0 1 h) (by decide),
   fun h => absurd (PromiseCrypto.encryptPromise_inj "c" "k" "f" 0 1 0 0 0 0 h).1
     (by decide)⟩

/-- C9 (amended).  Issuance and sealing are deterministic in the declared
inputs *plus* the ambient samples: certificates over equal inputs agree
exactly when the sampled `Date.now()` timestamps agree, and equal envelopes
over equal inputs force equal sampled timestamps, keys (mod 2^256) and IVs
(mod 2^128). -/
theorem issuance_sealing_determinism :
    (∀ (p k f : String) (t t' : Nat),
       PromiseCrypto.generateCertificate p k f t =
         PromiseCrypto.generateCertificate p k f t' ↔ t = t') ∧
    (∀ (c pk fp : String) (now now' key key' iv iv' : Nat),
       PromiseCrypto.encryptPromise c pk fp now key iv =
         PromiseCrypto.encryptPromise c pk fp now' key' iv' →
       now = now' ∧ key % 256 ^ 32 = key' % 256 ^ 32 ∧ iv % 256 ^ 16 = iv' % 256 ^ 16) :=
  ⟨fun p k f t t' =>
    ⟨fun h => PromiseCrypto.generateCertificate_inj p k f t t' h, fun h => by rw [h]⟩,
   fun c pk fp now now' key key' iv iv' h =>
    PromiseCrypto.encryptPromise_inj c pk fp now now' key key' iv iv' h⟩

/-- Witness for C9's conditional parts at concrete samples. -/
theorem issuance_sealing_determinism_witness :
    PromiseCrypto.generateCertificate "p" "k" "f" 5 =
      PromiseCrypto.generateCertificate "p" "k" "f" 5 ∧
    ((0 : Nat) = 0 ∧ (0 : Nat) % 256 ^ 32 = 0 % 256 ^ 32 ∧
      (0 : Nat) % 256 ^ 16 = 0 % 256 ^ 16) :=
  ⟨(issuance_sealing_determinism.1 "p" "k" "f" 5 5).mpr rfl,
   issuance_sealing_determinism.2 "c" "k" "f" 0 0 0 0 0 0 rfl⟩
